import Mathlib

/-!
Shallow embedding of the cargo-pbuild core (src/spec.rs, src/profile.rs):
the typed value system, the schema (Spec) parser, the profile parser and
the flag projection.  TOML decoding itself is out of scope: all parsers
take an already-decoded generic document (`RawValue`).  The build is
modelled without the optional `uuid` cargo feature, so the `Uuid` variants
guarded by `#[cfg(feature = "uuid")]` are absent.

Rust's `Result`-plus-`panic!`-style control flow is modelled by `RustRes`:
`ok` for `Ok`, `err` for `Err`, and `panicked` for an aborting panic
(`unwrap`, `todo!`, explicit panic).  `IndexMap` is modelled as an
association list with insertion-order-preserving `insert` semantics
(update-in-place when the key exists, append otherwise).
-/

namespace Pbuild

/-- Result of running a piece of Rust code that may return `Err` or panic. -/
inductive RustRes (ε : Type) (α : Type) where
  | ok : α → RustRes ε α
  | err : ε → RustRes ε α
  | panicked : RustRes ε α
deriving Repr

/-- Sequencing: `Ok` feeds the continuation, `Err` and panics propagate. -/
def RustRes.bind {ε α β : Type} : RustRes ε α → (α → RustRes ε β) → RustRes ε β
  | .ok a, f => f a
  | .err e, _ => .err e
  | .panicked, _ => .panicked

/-- Did the computation return `Ok`? -/
def RustRes.isOk {ε α : Type} : RustRes ε α → Bool
  | .ok _ => true
  | _ => false

/-- Rust `Option::unwrap`: `None` panics. -/
def unwrapO {ε α : Type} : Option α → RustRes ε α
  | some a => .ok a
  | none => .panicked

/-- Rust `Option::ok_or_else`: `None` becomes a typed error. -/
def unwrapErr {ε α : Type} (o : Option α) (e : ε) : RustRes ε α :=
  match o with
  | some a => .ok a
  | none => .err e

/-- Fallible left fold (a `for` loop threading state, aborting on failure). -/
def foldRM {ε σ α : Type} (f : σ → α → RustRes ε σ) : σ → List α → RustRes ε σ
  | s, [] => .ok s
  | s, x :: xs => (f s x).bind (fun s2 => foldRM f s2 xs)

/-- Fallible map (`collect::<Result<Vec<_>, _>>()`). -/
def mapRM {ε α β : Type} (f : α → RustRes ε β) : List α → RustRes ε (List β)
  | [] => .ok []
  | x :: xs => (f x).bind (fun y => (mapRM f xs).bind (fun ys => .ok (y :: ys)))

/-- Sequence a list of options (`collect::<Option<Vec<_>>>()`). -/
def allSome {α : Type} : List (Option α) → Option (List α)
  | [] => some []
  | none :: _ => none
  | some a :: rest => (allSome rest).map (fun l => a :: l)

/-- Rust `IndexMap` lookup on the association-list model. -/
def lookupIM {α : Type} : List (String × α) → String → Option α
  | [], _ => none
  | (a, b) :: rest, k => if a = k then some b else lookupIM rest k

/-- Rust `IndexMap::insert`: update in place when the key exists, append otherwise. -/
def insertIM {α : Type} : List (String × α) → String → α → List (String × α)
  | [], k, v => [(k, v)]
  | (a, b) :: rest, k, v =>
      if a = k then (a, v) :: rest else (a, b) :: insertIM rest k v

/-- A decoded TOML value (toml::Value), datetime omitted as unused; the float
payload is irrelevant to every operation modelled here and is dropped. -/
inductive RawValue where
  | str : String → RawValue
  | int : Int → RawValue
  | boolean : Bool → RawValue
  | float : RawValue
  | arr : List RawValue → RawValue
  | table : List (String × RawValue) → RawValue

/-- Rust `toml::Value::as_str`. -/
def RawValue.asStr : RawValue → Option String
  | .str s => some s
  | _ => none

/-- Rust `toml::Value::as_integer` (TOML integers are `i64`). -/
def RawValue.asInteger : RawValue → Option Int
  | .int x => some x
  | _ => none

/-- Rust `toml::Value::as_bool`. -/
def RawValue.asBool : RawValue → Option Bool
  | .boolean b => some b
  | _ => none

/-- Rust `toml::Value::as_table`. -/
def RawValue.asTable : RawValue → Option (List (String × RawValue))
  | .table t => some t
  | _ => none

/-- Rust `toml::Value::as_array`. -/
def RawValue.asArray : RawValue → Option (List RawValue)
  | .arr xs => some xs
  | _ => none

/-- Rust `toml::Value::get` with a string key: table lookup, `None` on non-tables. -/
def RawValue.get (v : RawValue) (k : String) : Option RawValue :=
  v.asTable.bind (fun t => lookupIM t k)

/-- The closed set of scalar kinds (`Type` in src/spec.rs; `uuid` feature off). -/
inductive Ty where
  | string
  | bool
  | u8
  | u16
  | u32
  | u64
  | i8
  | i16
  | i32
  | i64
deriving DecidableEq, Repr

/-- Rust `Type::as_str`. -/
def Ty.asStr : Ty → String
  | .string => "string"
  | .bool => "bool"
  | .u8 => "u8"
  | .u16 => "u16"
  | .u32 => "u32"
  | .u64 => "u64"
  | .i8 => "i8"
  | .i16 => "i16"
  | .i32 => "i32"
  | .i64 => "i64"

/-- Rust `Type::parse`. -/
def Ty.parse (input : String) : Option Ty :=
  if input = "string" ∨ input = "str" ∨ input = "String" then some .string
  else if input = "bool" ∨ input = "Bool" ∨ input = "boolean" then some .bool
  else if input = "u8" then some .u8
  else if input = "u16" then some .u16
  else if input = "u32" then some .u32
  else if input = "u64" then some .u64
  else if input = "i8" then some .i8
  else if input = "i16" then some .i16
  else if input = "i32" then some .i32
  else if input = "i64" then some .i64
  else none

/-- A typed scalar (`Value` in src/spec.rs).  Machine integers are carried as
`Int`; `Value.new` enforces the width range at construction, mirroring the
`TryFrom<i64>` conversions, so no overflow arithmetic ever occurs. -/
inductive Value where
  | string : String → Value
  | bool : Bool → Value
  | u8 : Int → Value
  | u16 : Int → Value
  | u32 : Int → Value
  | u64 : Int → Value
  | i8 : Int → Value
  | i16 : Int → Value
  | i32 : Int → Value
  | i64 : Int → Value
deriving DecidableEq, Repr

/-- Rust `Value::default`: the zero value of each type. -/
def Value.default : Ty → Value
  | .string => .string ""
  | .bool => .bool false
  | .u8 => .u8 0
  | .u16 => .u16 0
  | .u32 => .u32 0
  | .u64 => .u64 0
  | .i8 => .i8 0
  | .i16 => .i16 0
  | .i32 => .i32 0
  | .i64 => .i64 0

/-- Rust `Value::new`: coerce a raw node into the requested type.  Integer cases
extract the raw `i64` and apply the Rust `try_into` range checks of the
target width; `i64 → u64` can only fail on negatives, and `i64 → i64` is
infallible, exactly as in the source. -/
def Value.new (ty : Ty) (val : RawValue) : Option Value :=
  match ty with
  | .string => val.asStr.map .string
  | .bool => val.asBool.map .bool
  | .u8 => val.asInteger.bind
      (fun x => if 0 ≤ x ∧ x ≤ 255 then some (.u8 x) else none)
  | .u16 => val.asInteger.bind
      (fun x => if 0 ≤ x ∧ x ≤ 65535 then some (.u16 x) else none)
  | .u32 => val.asInteger.bind
      (fun x => if 0 ≤ x ∧ x ≤ 4294967295 then some (.u32 x) else none)
  | .u64 => val.asInteger.bind
      (fun x => if 0 ≤ x then some (.u64 x) else none)
  | .i8 => val.asInteger.bind
      (fun x => if -128 ≤ x ∧ x ≤ 127 then some (.i8 x) else none)
  | .i16 => val.asInteger.bind
      (fun x => if -32768 ≤ x ∧ x ≤ 32767 then some (.i16 x) else none)
  | .i32 => val.asInteger.bind
      (fun x => if -2147483648 ≤ x ∧ x ≤ 2147483647 then some (.i32 x) else none)
  | .i64 => val.asInteger.map .i64

/-- The integer kinds among `Ty`. -/
def Ty.isIntTy : Ty → Bool
  | .string => false
  | .bool => false
  | _ => true

/-- Smallest representable integer of an integer `Ty`. -/
def Ty.intMin : Ty → Int
  | .i8 => -128
  | .i16 => -32768
  | .i32 => -2147483648
  | .i64 => -9223372036854775808
  | _ => 0

/-- Largest representable integer of an integer `Ty`. -/
def Ty.intMax : Ty → Int
  | .u8 => 255
  | .u16 => 65535
  | .u32 => 4294967295
  | .u64 => 18446744073709551615
  | .i8 => 127
  | .i16 => 32767
  | .i32 => 2147483647
  | .i64 => 9223372036854775807
  | _ => 0

/-- The `Value` constructor matching an integer `Ty` (placeholder on the two
non-integer kinds, which every use guards out via `Ty.isIntTy`). -/
def Value.mkInt : Ty → Int → Value
  | .u8, x => .u8 x
  | .u16, x => .u16 x
  | .u32, x => .u32 x
  | .u64, x => .u64 x
  | .i8, x => .i8 x
  | .i16, x => .i16 x
  | .i32, x => .i32 x
  | .i64, x => .i64 x
  | .string, _ => .string ""
  | .bool, _ => .bool false

/-- Rust `TypeSpec` in src/spec.rs.  `TypeKey`, `TypeIndex` and `FieldKey` are
newtypes over `String` in the source; they are carried as plain strings here,
with the role recorded in field and binder names. -/
structure TypeSpec where
  key : String
  is_single : Bool
deriving DecidableEq, Repr

/-- Rust `FieldsError` in src/spec.rs.  The payloads mirror the source enum:
`excessKeys` and `missingKeys` carry the comma-joined offending names,
`missingField` carries (section, key), `invalidFieldType` carries
(field, key, expected-type text), `sectionMissing` carries the path. -/
inductive FieldsError where
  | excessKeys : String → FieldsError
  | missingKeys : String → FieldsError
  | missingField : String → String → FieldsError
  | invalidFieldType : String → String → String → FieldsError
  | sectionMissing : String → FieldsError
deriving DecidableEq, Repr

/-- Rust `Dep` in src/spec.rs: a reference to `ty:name`. -/
structure Dep where
  ty : String
  name : String
deriving DecidableEq, Repr

/-- Rust `DependencyOp` in src/spec.rs. -/
inductive DependencyOp where
  | or : List Dep → DependencyOp
  | and : List DependencyOp → DependencyOp
  | dep : Dep → DependencyOp
deriving Repr

/-- Rust `Dependencies` in src/spec.rs. -/
structure Dependencies where
  op : DependencyOp
deriving Repr

/-- Is `p` a prefix of the character list? -/
def isPrefixL : List Char → List Char → Bool
  | [], _ => true
  | _ :: _, [] => false
  | p :: ps, c :: cs => p = c && isPrefixL ps cs

/-- Drop the first `n` characters. -/
def dropN : Nat → List Char → List Char
  | 0, l => l
  | _ + 1, [] => []
  | n + 1, _ :: l => dropN n l

/-- Fuelled splitting worker: at each position either the (non-empty)
separator matches — emit the accumulated segment and skip it — or one
character is consumed.  The fuel is the input length, so the zero-fuel
branch with input left is unreachable. -/
def splitOnGo (sep : List Char) : Nat → List Char → List Char → List (List Char)
  | _, [], cur => [cur.reverse]
  | 0, l, cur => [cur.reverse ++ l]
  | fuel + 1, c :: rest, cur =>
      if isPrefixL sep (c :: rest) then
        cur.reverse :: splitOnGo sep fuel (dropN sep.length (c :: rest)) []
      else
        splitOnGo sep fuel rest (c :: cur)

/-- Rust `str::split` with a non-empty literal separator (both call sites pass
`":"` or `"OR"`): the substrings between the matches, in order, including
empty leading/trailing segments. -/
def splitOnS (s : String) (sep : String) : List String :=
  (splitOnGo sep.data s.data.length s.data []).map (fun l => String.mk l)

/-- ASCII whitespace, as trimmed by `str::trim` on the inputs at hand. -/
def isWS (c : Char) : Bool :=
  c = ' ' || c = '\t' || c = '\n' || c = '\r'

/-- Rust `str::trim`: whitespace stripped from both ends. -/
def trimS (s : String) : String :=
  ⟨((s.data.dropWhile isWS).reverse.dropWhile isWS).reverse⟩

/-- Rust `Dep::parse`: split on a colon into exactly two parts; the first must
match the `key` of some declared type. -/
def Dep.parse (input : String) (types : List (String × TypeSpec)) : Option Dep :=
  match splitOnS input ":" with
  | [a, b] =>
      if (types.find? (fun p => p.2.key = a)).isSome then some ⟨a, b⟩ else none
  | _ => none

/-- Rust `str::contains("OR")`, expressed through the split: a string contains the
substring exactly when splitting on it yields more than one segment. -/
def containsOR (s : String) : Bool :=
  (splitOnS s "OR").length != 1

/-- One line of `Dependencies::parse`: an `OR`-containing line splits into
trimmed segments, each parsed as a `Dep` (a failing segment is an `unwrap`
panic); otherwise the whole line is one `Dep` (again `unwrap`-panicking on
failure). -/
def Dependencies.parseLine (types : List (String × TypeSpec)) (x : String) :
    RustRes FieldsError DependencyOp :=
  if containsOR x then
    match allSome (((splitOnS x "OR").map trimS).map (fun s => Dep.parse s types)) with
    | some ds => .ok (.or ds)
    | none => .panicked
  else
    match Dep.parse x types with
    | some d => .ok (.dep d)
    | none => .panicked

/-- Rust `Dependencies::parse`: every raw line parsed, wrapped in a top-level `And`. -/
def Dependencies.parse (types : List (String × TypeSpec)) (raw : List String) :
    RustRes FieldsError Dependencies :=
  (mapRM (Dependencies.parseLine types) raw).bind (fun ops => .ok ⟨.and ops⟩)

/-- Rust `Dependencies::empty`. -/
def Dependencies.empty : Dependencies := ⟨.and []⟩

/-- Rust `PropSpec` in src/spec.rs. -/
structure PropSpec where
  ty : Ty
  default : Option Value
deriving DecidableEq, Repr

/-- The `type` extraction of `PropSpec::parse`: a required `type` key naming
a known `Ty`. -/
def prop_type_stage (name : String) (raw : RawValue) : RustRes FieldsError Ty :=
  match raw.get "type" with
  | none => RustRes.err (.missingField name "type")
  | some v =>
      match v.asStr.bind Ty.parse with
      | none => RustRes.err (.invalidFieldType name "type" "Type (string)")
      | some ty => RustRes.ok ty

/-- The `default` extraction of `PropSpec::parse`: an optional `default`
value that must coerce to the already-parsed type, failing fatally when the
coercion yields nothing. -/
def prop_default_stage (name : String) (raw : RawValue) (ty : Ty) :
    RustRes FieldsError (Option Value) :=
  match raw.get "default" with
  | some v =>
      match Value.new ty v with
      | none => RustRes.err (.invalidFieldType name "default" ty.asStr)
      | some d => RustRes.ok (some d)
  | none => RustRes.ok none

/-- Rust `PropSpec::parse`: a required `type` naming a known `Ty`, and an optional
`default` that must coerce to that type (a failing coercion is a typed,
fatal `InvalidFieldType` error on the `default` key). -/
def PropSpec.parse (name : String) (raw : RawValue) : RustRes FieldsError PropSpec :=
  RustRes.bind (prop_type_stage name raw)
    (fun ty => RustRes.bind (prop_default_stage name raw ty)
      (fun dflt => .ok { ty := ty, default := dflt }))

/-- Rust `Properties::parse`: each entry of the raw table becomes a `PropSpec`
under the path `name.<key>`. -/
def Properties.parse (name : String) (raw : List (String × RawValue)) :
    RustRes FieldsError (List (String × PropSpec)) :=
  mapRM (fun kv : String × RawValue =>
    (PropSpec.parse (name ++ "." ++ kv.1) kv.2).bind (fun ps => .ok (kv.1, ps))) raw

/-- Rust `FieldSpec` in src/spec.rs; `Properties` is its ordered name → `PropSpec`
map. -/
structure FieldSpec where
  description : String
  dependencies : Dependencies
  properties : List (String × PropSpec)
deriving Repr

/-- The `description` extraction of `FieldSpec::parse`: a required string. -/
def field_description (sect : String) (raw : List (String × RawValue)) :
    RustRes FieldsError String :=
  match lookupIM raw "description" with
  | none => RustRes.err (.missingField sect "description")
  | some v =>
      match v.asStr with
      | none => RustRes.err (.invalidFieldType sect "description" "string")
      | some s => RustRes.ok s

/-- The raw `dependencies` extraction of `FieldSpec::parse`: an optional
array of strings. -/
def field_raw_dependencies (sect : String) (raw : List (String × RawValue)) :
    RustRes FieldsError (Option (List String)) :=
  match lookupIM raw "dependencies" with
  | some v =>
      match v.asArray.bind (fun xs => allSome (xs.map RawValue.asStr)) with
      | none => RustRes.err (.invalidFieldType sect "dependencies" "array<string>")
      | some ss => RustRes.ok (some ss)
  | none => RustRes.ok none

/-- The dependency parse of `FieldSpec::parse`: present lines parsed, absence
giving the empty conjunction. -/
def field_dependencies (types : List (String × TypeSpec)) :
    Option (List String) → RustRes FieldsError Dependencies
  | some v => Dependencies.parse types v
  | none => RustRes.ok Dependencies.empty

/-- The raw `properties` extraction of `FieldSpec::parse`: an optional table. -/
def field_raw_properties (sect : String) (raw : List (String × RawValue)) :
    RustRes FieldsError (Option (List (String × RawValue))) :=
  match lookupIM raw "properties" with
  | some v =>
      match v.asTable with
      | none => RustRes.err (.invalidFieldType sect "properties" "table")
      | some t => RustRes.ok (some t)
  | none => RustRes.ok none

/-- The property parse of `FieldSpec::parse`. -/
def field_properties (sect : String) :
    Option (List (String × RawValue)) → RustRes FieldsError (List (String × PropSpec))
  | some t => Properties.parse (sect ++ ".properties") t
  | none => RustRes.ok []

/-- Rust `FieldSpec::parse`. -/
def FieldSpec.parse (sect : String) (types : List (String × TypeSpec))
    (raw : List (String × RawValue)) : RustRes FieldsError FieldSpec :=
  RustRes.bind (field_description sect raw)
    (fun description => RustRes.bind (field_raw_dependencies sect raw)
      (fun rawDeps => RustRes.bind (field_dependencies types rawDeps)
        (fun dependencies => RustRes.bind (field_raw_properties sect raw)
          (fun rawProps => RustRes.bind (field_properties sect rawProps)
            (fun properties => .ok ⟨description, dependencies, properties⟩)))))

/-- Rust `Spec` in src/spec.rs: `types` keyed by TypeIndex, `fields` keyed by
TypeIndex, each holding an ordered FieldKey → `FieldSpec` map. -/
structure Spec where
  name : String
  types : List (String × TypeSpec)
  fields : List (String × List (String × FieldSpec))
deriving Repr

/-- Rust `SpecError` in src/spec.rs. -/
inductive SpecError where
  | specMissing : SpecError
  | missingField : String → SpecError
  | invalidFieldType : String → String → SpecError
  | invalidTypeValue : String → SpecError
deriving DecidableEq, Repr

/-- Rust `Error` in src/spec.rs (the IO and TOML-decode variants are out of scope). -/
inductive SpecParseError where
  | spec : SpecError → SpecParseError
  | fields : FieldsError → SpecParseError
deriving DecidableEq, Repr

/-- The body of the per-category loop of `Spec::parse_fields`: resolve the
category's section as a table, parse every `category.field` sub-table into a
`FieldSpec`, and insert the finished field catalog under the TypeIndex. -/
def Spec.parse_fields_step (raw : List (String × RawValue))
    (types : List (String × TypeSpec))
    (out : List (String × List (String × FieldSpec))) (k : String) :
    RustRes FieldsError (List (String × List (String × FieldSpec))) :=
  RustRes.bind
    (unwrapErr ((lookupIM raw k).bind RawValue.asTable) (FieldsError.sectionMissing k))
    (fun sect => RustRes.bind
      (foldRM (fun fields kv => RustRes.bind
          (unwrapErr kv.2.asTable (FieldsError.sectionMissing (k ++ "." ++ kv.1)))
          (fun value => RustRes.bind
            (FieldSpec.parse (k ++ "." ++ kv.1) types value)
            (fun field_spec => .ok (insertIM fields kv.1 field_spec)))) [] sect)
      (fun fields => .ok (insertIM out k fields)))

/-- Rust `Spec::parse_fields`: the symmetric excess/missing cross-check of
top-level sections against the declared types, then a per-category parse. -/
def Spec.parse_fields (raw : List (String × RawValue))
    (types : List (String × TypeSpec)) :
    RustRes FieldsError (List (String × List (String × FieldSpec))) :=
  let undefined_types :=
    (raw.map Prod.fst).filter (fun x => x != "spec" && (lookupIM types x).isNone)
  if ¬ undefined_types.isEmpty then
    .err (.excessKeys (String.intercalate ", " undefined_types))
  else
    let missing_keys :=
      (types.map Prod.fst).filter (fun x => x != "spec" && (lookupIM raw x).isNone)
    if ¬ missing_keys.isEmpty then
      .err (.missingKeys (String.intercalate ", " missing_keys))
    else
      foldRM (Spec.parse_fields_step raw types) [] (types.map Prod.fst)

/-- Rust `Spec::parse_spec`: the `[spec]` header with `name` and the type catalog
(`key` taken from a bare string or from a table's mandatory `key` — the
latter `unwrap`-panicking when absent — and `is_single` from the presence of
`single`). -/
def Spec.parse_spec (raw : List (String × RawValue)) :
    RustRes SpecError (String × List (String × TypeSpec)) :=
  RustRes.bind
    (unwrapErr ((lookupIM raw "spec").bind RawValue.asTable) SpecError.specMissing)
    (fun raw_spec => RustRes.bind
      (match lookupIM raw_spec "name" with
        | none => RustRes.err (.missingField "name")
        | some v =>
            match v.asStr with
            | none => RustRes.err (.invalidFieldType "name" "string")
            | some s => RustRes.ok s)
      (fun name => RustRes.bind
        (match lookupIM raw_spec "types" with
          | none => RustRes.err (.missingField "types")
          | some v =>
              match v.asTable with
              | none => RustRes.err (.invalidFieldType "types" "map<string, string>")
              | some t => RustRes.ok t)
        (fun types_raw => RustRes.bind
          (mapRM (fun kv : String × RawValue =>
            match kv.2 with
            | .str s => .ok (kv.1, TypeSpec.mk s false)
            | .table t => RustRes.bind
                (unwrapO ((lookupIM t "key").bind RawValue.asStr))
                (fun key => .ok (kv.1, TypeSpec.mk key (lookupIM t "single").isSome))
            | _ => RustRes.err (.invalidTypeValue kv.1)) types_raw)
          (fun types => .ok (name, types)))))

/-- Rust `Spec::parse_str` on an already-decoded document. -/
def Spec.parse_str (raw : List (String × RawValue)) : RustRes SpecParseError Spec :=
  RustRes.bind
    (match Spec.parse_spec raw with
      | .ok x => RustRes.ok x
      | .err e => RustRes.err (.spec e)
      | .panicked => RustRes.panicked)
    (fun nt => RustRes.bind
      (match Spec.parse_fields raw nt.2 with
        | .ok f => RustRes.ok f
        | .err e => RustRes.err (.fields e)
        | .panicked => RustRes.panicked)
      (fun fields => .ok ⟨nt.1, nt.2, fields⟩))

/-- Rust `Error` in src/profile.rs (the IO and TOML-decode variants are out of
scope). -/
inductive PError where
  | noBinsOrLibs : PError
deriving DecidableEq, Repr

/-- The nested config map: TypeKey → FieldKey → property name → `Value`. -/
abbrev CfgMap := List (String × List (String × List (String × Value)))

/-- Rust `Profile` in src/profile.rs. -/
structure Profile where
  spec : Spec
  description : String
  bins : List String
  libs : List String
  features : List String
  config : CfgMap
deriving Repr

/-- The `bins`/`libs`/`features` extraction of `Profile::parse_str`: an
optional `[profile]` array whose members are `unwrap`ed as strings, absent
arrays defaulting to empty. -/
def profile_str_array (raw : List (String × RawValue)) (key : String) :
    RustRes PError (List String) :=
  match ((lookupIM raw "profile").bind (fun p => p.get key)).bind RawValue.asArray with
  | some xs => mapRM (fun x => unwrapO x.asStr) xs
  | none => .ok []

/-- Rust `Profile::parse_config`: resolve the category by TypeKey (`unwrap`), then
a bare-string value selects a declared field (`unwrap` on both catalog
lookups) with an empty property map; table values are `todo!` and anything
else panics. -/
def Profile.parse_config (spec : Spec) (ty : String) (v : RawValue)
    (map : List (String × List (String × Value))) :
    RustRes PError (List (String × List (String × Value))) :=
  RustRes.bind (unwrapO (spec.types.find? (fun p => p.2.key = ty)))
    (fun idx => match v with
      | .str s => RustRes.bind (unwrapO (lookupIM spec.fields idx.1))
          (fun fm => RustRes.bind (unwrapO (lookupIM fm s))
            (fun _field_spec => .ok (insertIM map s [])))
      | .table _ => .panicked
      | _ => .panicked)

/-- One `[config]` entry of `Profile::parse_str`: `entry(k).or_default()`
fetched, passed through `parse_config`, and written back. -/
def processConfigPair (spec : Spec) (config : CfgMap) (kv : String × RawValue) :
    RustRes PError CfgMap :=
  RustRes.bind (Profile.parse_config spec kv.1 kv.2 ((lookupIM config kv.1).getD []))
    (fun entry2 => .ok (insertIM config kv.1 entry2))

/-- One step of the default back-fill of `Profile::parse_str`: a schema
property carrying a default is inserted when not yet present. -/
def backfillStep (props : List (String × Value)) (kv : String × PropSpec) :
    List (String × Value) :=
  match kv.2.default with
  | some d => if (lookupIM props kv.1).isSome then props else insertIM props kv.1 d
  | none => props

/-- The default back-fill of `Profile::parse_str`: every schema property that
carries a default and is not yet present is inserted. -/
def backfill (propspecs : List (String × PropSpec)) (props : List (String × Value)) :
    List (String × Value) :=
  propspecs.foldl backfillStep props

/-- One field entry of a non-`profile`/`config` section: a boolean enables
the (schema-checked) field when true and does nothing when false; a table
collects explicit properties (each key schema-checked by `unwrap`, each value
coerced with a silent fall-back to the type's zero default), back-fills
schema defaults, and stores the result; any other shape panics. -/
def processAuxPair (spec : Spec) (type_index type_key : String) (config : CfgMap)
    (xk : String) (xv : RawValue) : RustRes PError CfgMap :=
  match xv with
  | .boolean x =>
      RustRes.bind (unwrapO (lookupIM spec.fields type_index))
        (fun fm => RustRes.bind (unwrapO (lookupIM fm xk))
          (fun _fs =>
            if x then
              .ok (insertIM config type_key
                (let entry := (lookupIM config type_key).getD []
                 if (lookupIM entry xk).isSome then entry else insertIM entry xk []))
            else
              .ok config))
  | .table t =>
      RustRes.bind (unwrapO (lookupIM spec.fields type_index))
        (fun fm => RustRes.bind (unwrapO (lookupIM fm xk))
          (fun field_spec => RustRes.bind
            (foldRM (fun props kv =>
                RustRes.bind (unwrapO (lookupIM field_spec.properties kv.1))
                  (fun prop_spec => .ok (insertIM props kv.1
                    ((Value.new prop_spec.ty kv.2).getD (Value.default prop_spec.ty)))))
              [] t)
            (fun props0 =>
              .ok (insertIM config type_key
                (insertIM ((lookupIM config type_key).getD []) xk
                  (backfill field_spec.properties props0))))))
  | _ => .panicked

/-- One non-`profile`/`config` section of `Profile::parse_str`: the section
key is a TypeIndex (`unwrap`ed against the type catalog, its TypeKey taken),
the value must be a table (`unwrap`), and every field entry is processed. -/
def processAuxSection (spec : Spec) (config : CfgMap) (k : String) (v : RawValue) :
    RustRes PError CfgMap :=
  RustRes.bind (unwrapO (lookupIM spec.types k))
    (fun ts => RustRes.bind (unwrapO v.asTable)
      (fun sect =>
        foldRM (fun cfg kv => processAuxPair spec k ts.key cfg kv.1 kv.2) config sect))

/-- Rust `Profile::parse_str` on an already-decoded document. -/
def Profile.parse_str (spec : Spec) (raw : List (String × RawValue)) :
    RustRes PError Profile :=
  RustRes.bind (profile_str_array raw "bins") (fun bins =>
  RustRes.bind (profile_str_array raw "libs") (fun libs =>
  if bins.isEmpty && libs.isEmpty then .err .noBinsOrLibs
  else
    RustRes.bind (profile_str_array raw "features") (fun features =>
    RustRes.bind (unwrapO (((lookupIM raw "profile").bind
        (fun p => p.get "description")).bind RawValue.asStr)) (fun description =>
    RustRes.bind (unwrapO ((lookupIM raw "config").bind RawValue.asTable)) (fun ct =>
    RustRes.bind (foldRM (processConfigPair spec) [] ct) (fun config1 =>
    RustRes.bind (foldRM (fun cfg kv => processAuxSection spec cfg kv.1 kv.2) config1
        (raw.filter (fun kv => kv.1 != "profile" && kv.1 != "config"))) (fun config2 =>
    .ok ⟨spec, description, bins, libs, features, config2⟩)))))))

/-- One step of the snake-case conversion: separators (non-alphanumerics) are
dropped and start a new word, as does an uppercase letter following a
lowercase letter or digit; letters are lowered.  Models heck's
`to_snake_case` on the ASCII identifier-like keys this program composes
(acronym runs, which never arise here, are not split). -/
def snakeStep (acc : String) (prev : Option Char) (c : Char) : String :=
  if c.isAlphanum then
    if c.isUpper && (match prev with | some p => p.isLower || p.isDigit | none => false) then
      (acc.push '_').push c.toLower
    else if (match prev with | some p => !p.isAlphanum | none => false) && !acc.isEmpty then
      (acc.push '_').push c.toLower
    else
      acc.push c.toLower
  else
    acc

/-- The conversion `heck::SnakeCase::to_snake_case`, as modelled by `snakeStep`. -/
def toSnakeCase (s : String) : String :=
  (s.data.foldl (fun (acc : String × Option Char) c => (snakeStep acc.1 acc.2 c, some c))
    ("", none)).1

/-- Rust `Profile::cfg_flags_map`: for every configured category (its `TypeSpec`
found by key, `unwrap`ed) and every enabled field, insert the single-select
or boolean flag entry and then one entry per property. -/
def Profile.cfg_flags_map (p : Profile) : RustRes PError (List (String × Value)) :=
  foldRM (fun out tv =>
    RustRes.bind (unwrapO (p.spec.types.find? (fun q => q.2.key = tv.1)))
      (fun tyspec => .ok (tv.2.foldl (fun out fb =>
        (fb.2.foldl (fun out pp =>
            insertIM out (toSnakeCase (tv.1 ++ "_" ++ fb.1 ++ "_" ++ pp.1)) pp.2)
          (if tyspec.2.is_single then
            insertIM out (toSnakeCase tv.1) (.string fb.1)
          else
            insertIM out (toSnakeCase (tv.1 ++ "_" ++ fb.1)) (.bool true)))) out)))
    [] p.config

/-- The single-quote character, written via its code point. -/
def sq : String := "\x27"

/-- One escaped character of Rust's `{:?}` (Debug) rendering of a string:
quote, backslash and the common control characters get their escape
sequences; other printable characters pass through unchanged. -/
def escapeDebugChar (c : Char) : String :=
  if c = '"' then "\\\""
  else if c = '\\' then "\\\\"
  else if c = '\n' then "\\n"
  else if c = '\r' then "\\r"
  else if c = '\t' then "\\t"
  else String.singleton c

/-- Rust's `{:?}` (Debug) rendering of a string: the escaped body wrapped in
double quotes. -/
def debugStr (s : String) : String :=
  "\"" ++ String.join (s.data.map escapeDebugChar) ++ "\""

/-- The token `format!` of `Profile::rustc_cfg_flags`: `'key="string"'` with
debug-quoting, `'key'` for booleans, `'key=<decimal>'` for every integer
width. -/
def fmtValueToken (k : String) (v : Value) : String :=
  match v with
  | .string x => sq ++ k ++ "=" ++ debugStr x ++ sq
  | .bool _ => sq ++ k ++ sq
  | .u8 x => sq ++ k ++ "=" ++ toString x ++ sq
  | .u16 x => sq ++ k ++ "=" ++ toString x ++ sq
  | .u32 x => sq ++ k ++ "=" ++ toString x ++ sq
  | .u64 x => sq ++ k ++ "=" ++ toString x ++ sq
  | .i8 x => sq ++ k ++ "=" ++ toString x ++ sq
  | .i16 x => sq ++ k ++ "=" ++ toString x ++ sq
  | .i32 x => sq ++ k ++ "=" ++ toString x ++ sq
  | .i64 x => sq ++ k ++ "=" ++ toString x ++ sq

/-- The loop of `Profile::rustc_cfg_flags` over an already-built flag map:
`Bool(false)` entries are skipped entirely, every other entry pushes the
literal `--cfg` marker and its formatted token. -/
def rustc_flags_of_map (m : List (String × Value)) : List String :=
  m.foldl (fun out kv =>
    if kv.2 = Value.bool false then out
    else out ++ ["--cfg", fmtValueToken kv.1 kv.2]) []

/-- Rust `Profile::rustc_cfg_flags`. -/
def Profile.rustc_cfg_flags (p : Profile) : RustRes PError (List String) :=
  RustRes.bind p.cfg_flags_map (fun m => .ok (rustc_flags_of_map m))

/-- Spec-side description (from the claim's words) of whether the category
with TypeKey `c` is single-select. -/
def category_single (spec : Spec) (c : String) : Bool :=
  match spec.types.find? (fun q => q.2.key = c) with
  | some q => q.2.is_single
  | none => false

/-- Spec-side description (from the claim's words) of the flag-map entries
emitted for one enabled field `f` of the category with key `c`: one
single-select String entry or one `category_field` Bool(true) entry, then
one `category_field_property` entry per property. -/
def field_flag_entries (c : String) (single : Bool) (f : String)
    (props : List (String × Value)) : List (String × Value) :=
  (if single then [(toSnakeCase c, Value.string f)]
   else [(toSnakeCase (c ++ "_" ++ f), Value.bool true)])
  ++ props.map (fun pp => (toSnakeCase (c ++ "_" ++ f ++ "_" ++ pp.1), pp.2))

/-- Spec-side description of all flag-map emissions of a profile, in emission
order. -/
def profile_flag_emissions (p : Profile) : List (String × Value) :=
  p.config.flatMap (fun tv => tv.2.flatMap (fun fb =>
    field_flag_entries tv.1 (category_single p.spec tv.1) fb.1 fb.2))

/-- Insert a list of emissions into the ordered map, in order. -/
def insertAllIM (m : List (String × Value)) (l : List (String × Value)) :
    List (String × Value) :=
  l.foldl (fun m kv => insertIM m kv.1 kv.2) m

/-! ### Concrete fixtures used by witnesses and counterexamples -/

/-- A type catalog declaring `alpha` and `beta`. -/
def c1types : List (String × TypeSpec) :=
  [("alpha", ⟨"alpha", false⟩), ("beta", ⟨"beta", false⟩)]

/-- A document with the declared section `alpha`, the undeclared section
`gamma`, and no section for the declared `beta`. -/
def c1raw : List (String × RawValue) :=
  [("spec", .table []), ("alpha", .table []), ("gamma", .table [])]

/-- The same document without the undeclared `gamma` section: only `beta` is
then missing. -/
def c1rawMissingOnly : List (String × RawValue) :=
  [("spec", .table []), ("alpha", .table [])]

/-- A complete schema document declaring one category `target` with one field
`linux`. -/
def c9raw : List (String × RawValue) :=
  [("spec", .table [("name", .str "demo"),
                    ("types", .table [("target", .str "target")])]),
   ("target", .table [("linux", .table [("description", .str "Linux")])])]

/-- The `Spec` that `c9raw` parses to. -/
def c9specv : Spec :=
  ⟨"demo", [("target", ⟨"target", false⟩)],
   [("target", [("linux", ⟨"Linux", ⟨.and []⟩, []⟩)])]⟩

/-- A field with no dependencies and no properties. -/
def fsEmpty : FieldSpec := ⟨"d", ⟨.and []⟩, []⟩

/-- A field with a defaulted `level: u8` property and an undefaulted
`tag: string` property. -/
def fsLogging : FieldSpec :=
  ⟨"d", ⟨.and []⟩, [("level", ⟨.u8, some (.u8 1)⟩), ("tag", ⟨.string, none⟩)]⟩

/-- A small schema: single-select category `target` with fields `linux` and
`windows`, multi-select category `feature` with field `logging`. -/
def specW : Spec :=
  ⟨"demo",
   [("target", ⟨"target", true⟩), ("feature", ⟨"feature", false⟩)],
   [("target", [("linux", fsEmpty), ("windows", fsEmpty)]),
    ("feature", [("logging", fsLogging)])]⟩

/-- A type catalog with the single category key `cat`. -/
def types8 : List (String × TypeSpec) := [("cat", ⟨"cat", false⟩)]

/-- A field block whose `dependencies` array contains the malformed entry
`nope` (no colon). -/
def rawT8 : List (String × RawValue) :=
  [("description", .str "d"), ("dependencies", .arr [.str "nope"])]

/-- A well-formed `[profile]` header table. -/
def profTable : RawValue :=
  .table [("bins", .arr [.str "app"]), ("description", .str "d")]

/-- A profile document whose `[config]` references the unknown category
`unknown`. -/
def raw7 : List (String × RawValue) :=
  [("profile", profTable), ("config", .table [("unknown", .str "linux")])]

/-- A profile document whose auxiliary `feature` section configures the
unknown field `nofield` with a table value. -/
def raw7b : List (String × RawValue) :=
  [("profile", profTable), ("config", .table []),
   ("feature", .table [("nofield", .table [])])]

/-- A profile document with the auxiliary entry `feature.logging = false`. -/
def raw10 : List (String × RawValue) :=
  [("profile", profTable), ("config", .table []),
   ("feature", .table [("logging", .boolean false)])]

/-- The same document without the `logging = false` entry. -/
def raw10v : List (String × RawValue) :=
  [("profile", profTable), ("config", .table []), ("feature", .table [])]

/-- A validated profile over `specW` enabling `target.linux` (single-select,
no properties) and `feature.logging` with property `level = 1`. -/
def profW : Profile :=
  ⟨specW, "d", ["app"], [], [],
   [("target", [("linux", [])]), ("feature", [("logging", [("level", .u8 1)])])]⟩

/-! ### Theorems -/

/-! #### Generic lemmas about the Rust control-flow model -/

/-- A failed computation stays failed through `bind`. -/
theorem RustRes.isOk_bind_left {ε α β : Type} {m : RustRes ε α} {g : α → RustRes ε β}
    (h : m.isOk = false) : (m.bind g).isOk = false := by
  cases m with
  | ok a => simp [RustRes.isOk] at h
  | err e => rfl
  | panicked => rfl

/-- If every continuation fails, the bound computation is never `Ok`. -/
theorem RustRes.isOk_bind_all {ε α β : Type} {m : RustRes ε α} {g : α → RustRes ε β}
    (h : ∀ a, (g a).isOk = false) : (m.bind g).isOk = false := by
  cases m with
  | ok a => exact h a
  | err e => rfl
  | panicked => rfl

/-- Running `bind` on `Ok` runs the continuation. -/
theorem RustRes.bind_ok {ε α β : Type} (a : α) (g : α → RustRes ε β) :
    RustRes.bind (.ok a) g = g a := rfl

/-- Running `bind` on `Err` propagates the error. -/
theorem RustRes.bind_err {ε α β : Type} (e : ε) (g : α → RustRes ε β) :
    RustRes.bind (.err e) g = .err e := rfl

/-- Running `bind` on a panic propagates the panic. -/
theorem RustRes.bind_panicked {ε α β : Type} (g : α → RustRes ε β) :
    RustRes.bind .panicked g = .panicked := rfl

/-- The operation `bind` respects pointwise-equal continuations. -/
theorem RustRes.bind_congr {ε α β : Type} {m : RustRes ε α} {g1 g2 : α → RustRes ε β}
    (h : ∀ a, g1 a = g2 a) : m.bind g1 = m.bind g2 := by
  cases m with
  | ok a => exact h a
  | err e => rfl
  | panicked => rfl

/-- Evaluating `unwrap` on a present value. -/
theorem unwrapO_some {ε α : Type} (a : α) : (unwrapO (some a) : RustRes ε α) = .ok a := rfl

/-- Evaluating `unwrap` on `None` panics. -/
theorem unwrapO_none {ε α : Type} : (unwrapO none : RustRes ε α) = .panicked := rfl

/-- Evaluating `ok_or_else` on a present value. -/
theorem unwrapErr_some {ε α : Type} (a : α) (e : ε) : unwrapErr (some a) e = .ok a := rfl

/-- Evaluating `ok_or_else` on `None` is the supplied error. -/
theorem unwrapErr_none {ε α : Type} (e : ε) : (unwrapErr none e : RustRes ε α) = .err e := rfl

/-- Inverting a successful `bind`. -/
theorem RustRes.bind_eq_ok {ε α β : Type} {m : RustRes ε α} {g : α → RustRes ε β} {b : β}
    (h : m.bind g = .ok b) : ∃ a, m = .ok a ∧ g a = .ok b := by
  cases m with
  | ok a => exact ⟨a, rfl, h⟩
  | err e => exact absurd h (by simp [RustRes.bind])
  | panicked => exact absurd h (by simp [RustRes.bind])

/-- A fallible fold over a list containing an element whose step always
fails (whatever the state) is never `Ok`. -/
theorem foldRM_isOk_false {ε σ α : Type} {f : σ → α → RustRes ε σ} {x : α} {l : List α}
    (hx : x ∈ l) (hf : ∀ s, (f s x).isOk = false) :
    ∀ s, (foldRM f s l).isOk = false := by
  induction l with
  | nil => cases hx
  | cons y ys ih =>
    intro s
    rcases List.mem_cons.mp hx with h | h
    · subst h
      exact RustRes.isOk_bind_left (hf s)
    · exact RustRes.isOk_bind_all (fun s2 => ih h s2)

/-- A fallible map over a list containing a failing element is never `Ok`. -/
theorem mapRM_isOk_false {ε α β : Type} {f : α → RustRes ε β} {x : α} {l : List α}
    (hx : x ∈ l) (hf : (f x).isOk = false) : (mapRM f l).isOk = false := by
  induction l with
  | nil => cases hx
  | cons y ys ih =>
    rcases List.mem_cons.mp hx with h | h
    · subst h
      exact RustRes.isOk_bind_left hf
    · exact RustRes.isOk_bind_all (fun b => RustRes.isOk_bind_left (ih h))

/-! #### Lemmas about the IndexMap model -/

/-- A lookup succeeds exactly when the key occurs in the map. -/
theorem lookupIM_isSome_iff_mem {α : Type} (l : List (String × α)) (k : String) :
    (lookupIM l k).isSome = true ↔ k ∈ l.map Prod.fst := by
  induction l with
  | nil => simp [lookupIM]
  | cons x xs ih =>
    obtain ⟨a, b⟩ := x
    by_cases h : a = k
    · subst h; simp [lookupIM]
    · simp only [lookupIM, if_neg h, List.map_cons, List.mem_cons, ih]
      constructor
      · exact Or.inr
      · rintro (rfl | hm)
        · exact absurd rfl h
        · exact hm

/-- Looking up the freshly inserted key. -/
theorem lookupIM_insertIM_self {α : Type} (m : List (String × α)) (k : String) (v : α) :
    lookupIM (insertIM m k v) k = some v := by
  induction m with
  | nil => simp [insertIM, lookupIM]
  | cons x xs ih =>
    obtain ⟨a, b⟩ := x
    by_cases h : a = k
    · subst h; simp [insertIM, lookupIM]
    · simp [insertIM, lookupIM, h, ih]

/-- Insertion does not disturb other keys. -/
theorem lookupIM_insertIM_ne {α : Type} (m : List (String × α)) (k q : String) (v : α)
    (h : q ≠ k) : lookupIM (insertIM m k v) q = lookupIM m q := by
  induction m with
  | nil => simp [insertIM, lookupIM, Ne.symm h]
  | cons x xs ih =>
    obtain ⟨a, b⟩ := x
    by_cases ha : a = k
    · subst ha; simp [insertIM, lookupIM, Ne.symm h]
    · by_cases hq : a = q
      · subst hq; simp [insertIM, lookupIM, ha]
      · simp [insertIM, lookupIM, ha, hq, ih]

/-- Key presence after insertion. -/
theorem isSome_lookupIM_insertIM {α : Type} (m : List (String × α)) (k q : String) (v : α) :
    (lookupIM (insertIM m k v) q).isSome = true ↔
      q = k ∨ (lookupIM m q).isSome = true := by
  by_cases h : q = k
  · subst h; simp [lookupIM_insertIM_self]
  · simp [lookupIM_insertIM_ne m k q v h, h]

/-! #### C1 -/

/-- C1 counterexample: on `c1raw` against `c1types`, the declared `beta`
section is missing *and* the undeclared `gamma` section is present, yet
`parse_fields` fails with an `ExcessKeys` failure naming only `gamma` — the
missing `beta` is not mentioned, contradicting the claim that one failure
mentions both names. -/
theorem c1_excess_wins_counterexample :
    (lookupIM c1types "beta").isSome = true ∧ lookupIM c1raw "beta" = none ∧
    lookupIM c1types "gamma" = none ∧ (lookupIM c1raw "gamma").isSome = true ∧
    Spec.parse_fields c1raw c1types = .err (.excessKeys "gamma") := by
  refine ⟨rfl, rfl, rfl, rfl, rfl⟩

/-- C1 amended: each of the two structural cross-checks batches all of its
own violations into one failure, but the checks are sequential, not merged:
whenever at least one undeclared section exists, parsing fails with a single
`ExcessKeys` failure naming exactly the undeclared sections (missing
sections are not mentioned); only when no undeclared section exists does a
non-empty missing set produce a single `MissingKeys` failure naming exactly
the missing declared types. -/
theorem c1_batched_per_kind (raw : List (String × RawValue))
    (types : List (String × TypeSpec)) :
    ((((raw.map Prod.fst).filter (fun x => x != "spec" && (lookupIM types x).isNone)) ≠ []) →
      Spec.parse_fields raw types =
        .err (.excessKeys (String.intercalate ", "
          ((raw.map Prod.fst).filter (fun x => x != "spec" && (lookupIM types x).isNone))))) ∧
    ((((raw.map Prod.fst).filter (fun x => x != "spec" && (lookupIM types x).isNone)) = []) →
      (((types.map Prod.fst).filter (fun x => x != "spec" && (lookupIM raw x).isNone)) ≠ []) →
      Spec.parse_fields raw types =
        .err (.missingKeys (String.intercalate ", "
          ((types.map Prod.fst).filter (fun x => x != "spec" && (lookupIM raw x).isNone))))) := by
  constructor
  · intro h
    simp only [Spec.parse_fields]
    rw [if_pos]
    simpa using h
  · intro h1 h2
    simp only [Spec.parse_fields]
    rw [if_neg, if_pos]
    · simpa using h2
    · simp [h1]

/-- Witness for C1's amended theorem: on `c1raw` (excess `gamma`, missing
`beta`) the first part applies; on `c1rawMissingOnly` (no excess, missing
`beta`) the second part applies. -/
theorem c1_batched_per_kind_witness :
    (((c1raw.map Prod.fst).filter
        (fun x => x != "spec" && (lookupIM c1types x).isNone)) ≠ [] ∧
      Spec.parse_fields c1raw c1types = .err (.excessKeys "gamma")) ∧
    (((c1rawMissingOnly.map Prod.fst).filter
        (fun x => x != "spec" && (lookupIM c1types x).isNone)) = [] ∧
      Spec.parse_fields c1rawMissingOnly c1types = .err (.missingKeys "beta")) := by
  refine ⟨⟨by decide, ?_⟩, ⟨by decide, ?_⟩⟩
  · exact (c1_batched_per_kind c1raw c1types).1 (by decide)
  · exact (c1_batched_per_kind c1rawMissingOnly c1types).2 (by decide) (by decide)

/-! #### C9 -/

/-- Inverting one successful step of the `parse_fields` category loop: the
output map is the input with the category's field catalog inserted. -/
theorem parse_fields_step_ok {raw : List (String × RawValue)}
    {types : List (String × TypeSpec)}
    {out o2 : List (String × List (String × FieldSpec))} {k : String}
    (h : Spec.parse_fields_step raw types out k = .ok o2) :
    ∃ f, o2 = insertIM out k f := by
  obtain ⟨sect, _, h2⟩ := RustRes.bind_eq_ok h
  obtain ⟨fields, _, h4⟩ := RustRes.bind_eq_ok h2
  refine ⟨fields, ?_⟩
  cases h4
  rfl

/-- Keys present after the `parse_fields` category loop: exactly the
traversed keys together with those already present. -/
theorem foldRM_parse_fields_keys {raw : List (String × RawValue)}
    {types : List (String × TypeSpec)} :
    ∀ (ks : List String) (out m : List (String × List (String × FieldSpec))),
    foldRM (Spec.parse_fields_step raw types) out ks = .ok m →
    ∀ q, (lookupIM m q).isSome = true ↔ q ∈ ks ∨ (lookupIM out q).isSome = true := by
  intro ks
  induction ks with
  | nil =>
    intro out m h q
    cases h
    simp
  | cons k ks ih =>
    intro out m h q
    obtain ⟨o2, h1, h2⟩ := RustRes.bind_eq_ok h
    obtain ⟨f, rfl⟩ := parse_fields_step_ok h1
    rw [ih _ _ h2 q, isSome_lookupIM_insertIM]
    simp only [List.mem_cons]
    tauto

/-- A successful `parse_fields` means both cross-checks passed and the
category loop produced the result. -/
theorem parse_fields_ok_fold {raw : List (String × RawValue)}
    {types : List (String × TypeSpec)}
    {m : List (String × List (String × FieldSpec))}
    (h : Spec.parse_fields raw types = .ok m) :
    foldRM (Spec.parse_fields_step raw types) [] (types.map Prod.fst) = .ok m := by
  unfold Spec.parse_fields at h
  by_cases h1 : ((raw.map Prod.fst).filter
      (fun x => x != "spec" && (lookupIM types x).isNone)).isEmpty
  · rw [if_neg (not_not_intro h1)] at h
    by_cases h2 : ((types.map Prod.fst).filter
        (fun x => x != "spec" && (lookupIM raw x).isNone)).isEmpty
    · rwa [if_neg (not_not_intro h2)] at h
    · rw [if_pos h2] at h
      exact absurd h (by simp)
  · rw [if_pos h1] at h
    exact absurd h (by simp)

/-- C9: whenever `Spec::parse_str` returns a `Spec`, the key-set of its
`fields` map equals the key-set of its `types` map: a field catalog exists
exactly for the declared TypeIndexes. -/
theorem c9_fields_keys_eq_types_keys (raw : List (String × RawValue)) (s : Spec)
    (h : Spec.parse_str raw = .ok s) :
    ∀ k, (lookupIM s.fields k).isSome = true ↔ (lookupIM s.types k).isSome = true := by
  intro k
  unfold Spec.parse_str at h
  obtain ⟨nt, h1, h2⟩ := RustRes.bind_eq_ok h
  obtain ⟨fields, h3, h4⟩ := RustRes.bind_eq_ok h2
  cases h4
  cases hps : Spec.parse_fields raw nt.2 with
  | ok m =>
    rw [hps] at h3
    cases h3
    have hfold := parse_fields_ok_fold hps
    have hk := foldRM_parse_fields_keys (nt.2.map Prod.fst) [] fields hfold k
    simp only [lookupIM, Option.isSome_none, Bool.false_eq_true, or_false] at hk
    rw [hk, lookupIM_isSome_iff_mem]
  | err e => rw [hps] at h3; exact absurd h3 (by simp)
  | panicked => rw [hps] at h3; exact absurd h3 (by simp)

/-- Witness for C9: the concrete schema document `c9raw` parses to `c9specv`,
and key presence in `fields` matches key presence in `types` at the declared
index `target`. -/
theorem c9_fields_keys_eq_types_keys_witness :
    Spec.parse_str c9raw = .ok c9specv ∧
    ((lookupIM c9specv.fields "target").isSome = true ↔
      (lookupIM c9specv.types "target").isSome = true) :=
  ⟨rfl, c9_fields_keys_eq_types_keys c9raw c9specv rfl "target"⟩

/-- C4: matching-kind raw scalars coerce to a `Value` of the same tag holding
the same payload; a raw integer (necessarily in `i64` range, as produced by
the TOML decoder) coerces into an integer type exactly when it lies in the
target range, and yields nothing — never a clamped or wrapped value — when
out of range. -/
theorem c4_coerce_in_range_or_none :
    (∀ s : String, Value.new .string (.str s) = some (.string s)) ∧
    (∀ b : Bool, Value.new .bool (.boolean b) = some (.bool b)) ∧
    (∀ (t : Ty) (x : Int), t.isIntTy = true →
      -9223372036854775808 ≤ x → x ≤ 9223372036854775807 →
      Value.new t (.int x) =
        if t.intMin ≤ x ∧ x ≤ t.intMax then some (Value.mkInt t x) else none) := by
  refine ⟨fun s => rfl, fun b => rfl, fun t x ht hlo hhi => ?_⟩
  cases t
  case string => exact absurd ht (by decide)
  case bool => exact absurd ht (by decide)
  all_goals
    simp only [Value.new, RawValue.asInteger, Ty.intMin, Ty.intMax, Value.mkInt,
      Option.bind, Option.map] <;>
    (split_ifs <;> first | rfl | omega)

/-- Witness for C4 at concrete inputs: `300` is rejected by `u8` (the spec's
example), `200` is accepted by `u8`, and the hypotheses hold for `u8`. -/
theorem c4_coerce_in_range_or_none_witness :
    (Ty.isIntTy .u8 = true ∧ -9223372036854775808 ≤ (300 : Int) ∧
      (300 : Int) ≤ 9223372036854775807) ∧
    Value.new .u8 (.int 300) = none ∧
    Value.new .u8 (.int 200) = some (.u8 200) := by
  refine ⟨by decide, ?_, ?_⟩
  · have h := c4_coerce_in_range_or_none.2.2 .u8 300 (by decide) (by decide) (by decide)
    simpa using h
  · have h := c4_coerce_in_range_or_none.2.2 .u8 200 (by decide) (by decide) (by decide)
    simpa using h

/-! #### C8 -/

/-- C8: a dependency line containing the token `OR` splits on it, each
trimmed segment parses as a `Dep`, and the line becomes `Or` of those deps;
a line without the token becomes `Dep` of its parse; `Dep::parse` requires
splitting on `:` into exactly two parts whose first part matches some
declared TypeKey and fails (`none`) otherwise; and a malformed entry
anywhere in a dependency list makes `Dependencies::parse` — and with it the
parse of the owning field block — a hard failure rather than a skipped
entry. -/
theorem c8_dependency_parsing :
    (∀ (types : List (String × TypeSpec)) (x : String) (ds : List Dep),
      containsOR x = true →
      allSome (((splitOnS x "OR").map trimS).map (fun s => Dep.parse s types)) =
        some ds →
      Dependencies.parseLine types x = .ok (.or ds)) ∧
    (∀ (types : List (String × TypeSpec)) (x : String) (d : Dep),
      containsOR x = false → Dep.parse x types = some d →
      Dependencies.parseLine types x = .ok (.dep d)) ∧
    (∀ (types : List (String × TypeSpec)) (input : String),
      (splitOnS input ":").length ≠ 2 → Dep.parse input types = none) ∧
    (∀ (types : List (String × TypeSpec)) (input a b : String),
      splitOnS input ":" = [a, b] →
      ((types.find? (fun p => p.2.key = a) = none → Dep.parse input types = none) ∧
       ((types.find? (fun p => p.2.key = a)).isSome = true →
         Dep.parse input types = some ⟨a, b⟩))) ∧
    (∀ (types : List (String × TypeSpec)) (raw : List String) (x : String),
      x ∈ raw → (Dependencies.parseLine types x).isOk = false →
      (Dependencies.parse types raw).isOk = false) ∧
    (∀ (sect : String) (types : List (String × TypeSpec))
       (rawT : List (String × RawValue)) (dv : RawValue)
       (arr : List RawValue) (ss : List String) (x : String),
      lookupIM rawT "dependencies" = some dv →
      dv.asArray = some arr → allSome (arr.map RawValue.asStr) = some ss →
      x ∈ ss → (Dependencies.parseLine types x).isOk = false →
      (FieldSpec.parse sect types rawT).isOk = false) := by
  refine ⟨?_, ?_, ?_, ?_, ?_, ?_⟩
  · intro types x ds h hall
    unfold Dependencies.parseLine
    rw [if_pos h, hall]
  · intro types x d h hd
    unfold Dependencies.parseLine
    rw [if_neg (by simp [h]), hd]
  · intro types input hlen
    unfold Dep.parse
    cases hsp : splitOnS input ":" with
    | nil => rfl
    | cons a t =>
      cases t with
      | nil => rfl
      | cons b t2 =>
        cases t2 with
        | nil => exact absurd (by rw [hsp]; rfl) hlen
        | cons c t3 => rfl
  · intro types input a b hsp
    constructor
    · intro hn
      unfold Dep.parse
      rw [hsp]
      simp [hn]
    · intro hs
      unfold Dep.parse
      rw [hsp]
      simp [hs]
  · intro types raw x hx hfail
    unfold Dependencies.parse
    exact RustRes.isOk_bind_left (mapRM_isOk_false hx hfail)
  · intro sect types rawT dv arr ss x hdep hda hall hx hfail
    unfold FieldSpec.parse
    apply RustRes.isOk_bind_all
    intro description
    have h1 : field_raw_dependencies sect rawT = .ok (some ss) := by
      unfold field_raw_dependencies
      rw [hdep]
      simp [hda, hall]
    rw [h1, RustRes.bind_ok]
    apply RustRes.isOk_bind_left
    show (field_dependencies types (some ss)).isOk = false
    unfold field_dependencies Dependencies.parse
    exact RustRes.isOk_bind_left (mapRM_isOk_false hx hfail)

/-- Witness for C8 at concrete inputs: `"cat:a OR cat:b"` parses as an `Or`
of two deps, `"cat:foo"` as a single `Dep`, `"nope"` (no colon) fails, and a
field block with the dependency line `"nope"` fails to parse. -/
theorem c8_dependency_parsing_witness :
    (containsOR "cat:a OR cat:b" = true ∧
      Dependencies.parseLine types8 "cat:a OR cat:b" =
        .ok (.or [⟨"cat", "a"⟩, ⟨"cat", "b"⟩])) ∧
    (containsOR "cat:foo" = false ∧
      Dependencies.parseLine types8 "cat:foo" = .ok (.dep ⟨"cat", "foo"⟩)) ∧
    ((splitOnS "nope" ":").length ≠ 2 ∧ Dep.parse "nope" types8 = none) ∧
    (FieldSpec.parse "cat.x" types8 rawT8).isOk = false := by
  refine ⟨⟨by decide, ?_⟩, ⟨by decide, ?_⟩, ⟨by decide, ?_⟩, ?_⟩
  · exact c8_dependency_parsing.1 types8 "cat:a OR cat:b" _ (by decide) (by decide)
  · exact c8_dependency_parsing.2.1 types8 "cat:foo" _ (by decide) (by decide)
  · exact c8_dependency_parsing.2.2.1 types8 "nope" (by decide)
  · exact c8_dependency_parsing.2.2.2.2.2 "cat.x" types8 rawT8 _ _ _ "nope"
      rfl rfl rfl (by decide) (by decide)

/-! #### Lemmas about the explicit-property collection and the back-fill -/

/-- Characterising the explicit-property fold of the aux-table branch of
`Profile::parse_str`: when every raw key is declared, the fold succeeds;
keys not in the raw table are untouched, and (for the duplicate-free tables
TOML produces) each raw entry ends up with its coerced-or-zero value. -/
theorem aux_props_fold (P : List (String × PropSpec)) :
    ∀ (t : List (String × RawValue)) (props : List (String × Value)),
    (∀ kv ∈ t, (lookupIM P kv.1).isSome = true) →
    ∃ props0,
      foldRM (fun props kv =>
          RustRes.bind (unwrapO (lookupIM P kv.1))
            (fun prop_spec => .ok (insertIM props kv.1
              ((Value.new prop_spec.ty kv.2).getD (Value.default prop_spec.ty)))))
        props t = (.ok props0 : RustRes PError (List (String × Value))) ∧
      (∀ q, q ∉ t.map Prod.fst → lookupIM props0 q = lookupIM props q) ∧
      ((t.map Prod.fst).Nodup →
        ∀ k v ps, (k, v) ∈ t → lookupIM P k = some ps →
          lookupIM props0 k = some ((Value.new ps.ty v).getD (Value.default ps.ty))) := by
  intro t
  induction t with
  | nil =>
    intro props _
    exact ⟨props, rfl, fun q _ => rfl, fun _ k v ps hm _ => absurd hm (List.not_mem_nil _)⟩
  | cons kv t' ih =>
    intro props h
    obtain ⟨a, av⟩ := kv
    have ha := h (a, av) (List.mem_cons_self _ _)
    obtain ⟨pa, hpa⟩ := Option.isSome_iff_exists.mp ha
    obtain ⟨props0, hfold, hpre, hexp⟩ :=
      ih (insertIM props a ((Value.new pa.ty av).getD (Value.default pa.ty)))
        (fun kv hm => h kv (List.mem_cons_of_mem _ hm))
    refine ⟨props0, ?_, ?_, ?_⟩
    · simp only [foldRM]
      rw [hpa]
      simp only [unwrapO, RustRes.bind_ok]
      exact hfold
    · intro q hq
      simp only [List.map_cons, List.mem_cons, not_or] at hq
      obtain ⟨hqa, hqt⟩ := hq
      rw [hpre q hqt, lookupIM_insertIM_ne _ _ _ _ hqa]
    · intro hnd k v ps hm hP
      simp only [List.map_cons, List.nodup_cons] at hnd
      obtain ⟨hna, hnd'⟩ := hnd
      rcases List.mem_cons.mp hm with heq | hm'
      · have hk1 : k = a := congrArg Prod.fst heq
        have hv1 : v = av := congrArg Prod.snd heq
        rw [hk1] at hP
        rw [hP] at hpa
        injection hpa with hpa2
        rw [hk1, hv1, hpa2, hpre a hna, lookupIM_insertIM_self]
      · exact hexp hnd' k v ps hm' hP

/-- The back-fill never changes a property that is already present. -/
theorem backfill_preserves {k : String} {x : Value} :
    ∀ (l : List (String × PropSpec)) (props : List (String × Value)),
    lookupIM props k = some x → lookupIM (backfill l props) k = some x := by
  intro l
  induction l with
  | nil => intro props h; exact h
  | cons p l' ih =>
    intro props h
    have hstep : lookupIM (backfillStep props p) k = some x := by
      unfold backfillStep
      cases hd : p.2.default with
      | none => exact h
      | some d =>
        by_cases hps : (lookupIM props p.1).isSome = true
        · simp [hps, h]
        · have hne : k ≠ p.1 := by
            intro he
            rw [he] at h
            rw [h] at hps
            simp at hps
          dsimp only
          rw [if_neg hps, lookupIM_insertIM_ne _ _ _ _ hne]
          exact h
    have hc : backfill (p :: l') props = backfill l' (backfillStep props p) := by
      simp [backfill]
    rw [hc]
    exact ih _ hstep

/-- The back-fill fills every defaulted schema property that is absent. -/
theorem backfill_fills :
    ∀ (l : List (String × PropSpec)) (props : List (String × Value)) (k : String)
      (ps : PropSpec) (d : Value),
    (l.map Prod.fst).Nodup → (k, ps) ∈ l → ps.default = some d →
    lookupIM props k = none →
    lookupIM (backfill l props) k = some d := by
  intro l
  induction l with
  | nil => intro props k ps d _ hm; cases hm
  | cons p l' ih =>
    intro props k ps d hnd hm hd hnone
    simp only [List.map_cons, List.nodup_cons] at hnd
    obtain ⟨hna, hnd'⟩ := hnd
    have hc : backfill (p :: l') props = backfill l' (backfillStep props p) := by
      simp [backfill]
    rw [hc]
    rcases List.mem_cons.mp hm with heq | hm'
    · cases heq
      have hstep : backfillStep props (k, ps) = insertIM props k d := by
        simp [backfillStep, hd, hnone]
      rw [hstep]
      exact backfill_preserves l' _ (lookupIM_insertIM_self props k d)
    · have hk : k ∈ l'.map Prod.fst := List.mem_map_of_mem Prod.fst hm'
      have hne : k ≠ p.1 := fun he => hna (he ▸ hk)
      have hstep : lookupIM (backfillStep props p) k = none := by
        unfold backfillStep
        cases hdd : p.2.default with
        | none => exact hnone
        | some d2 =>
          by_cases hps : (lookupIM props p.1).isSome = true
          · dsimp only
            rw [if_pos hps]
            exact hnone
          · dsimp only
            rw [if_neg hps, lookupIM_insertIM_ne _ _ _ _ hne]
            exact hnone
      exact ih _ k ps d hnd' hm' hd hstep

/-- The aux-table branch of `Profile::parse_str` on a fully-declared property
table: it succeeds, storing the back-filled explicit properties under the
category's TypeKey and the field's key. -/
theorem processAuxPair_table {spec : Spec} {ti tk xk : String} {config : CfgMap}
    {t : List (String × RawValue)} {fm : List (String × FieldSpec)} {fs : FieldSpec}
    (hfm : lookupIM spec.fields ti = some fm) (hfs : lookupIM fm xk = some fs)
    (hdecl : ∀ kv ∈ t, (lookupIM fs.properties kv.1).isSome = true) :
    ∃ props0,
      processAuxPair spec ti tk config xk (.table t) =
        .ok (insertIM config tk (insertIM ((lookupIM config tk).getD []) xk
          (backfill fs.properties props0))) ∧
      (∀ q, q ∉ t.map Prod.fst → lookupIM props0 q = none) ∧
      ((t.map Prod.fst).Nodup →
        ∀ k v ps, (k, v) ∈ t → lookupIM fs.properties k = some ps →
          lookupIM props0 k = some ((Value.new ps.ty v).getD (Value.default ps.ty))) := by
  obtain ⟨props0, hfold, hpre, hexp⟩ := aux_props_fold fs.properties t [] hdecl
  refine ⟨props0, ?_, fun q hq => by rw [hpre q hq]; rfl, hexp⟩
  unfold processAuxPair
  dsimp only
  rw [hfm, unwrapO_some, RustRes.bind_ok, hfs, unwrapO_some, RustRes.bind_ok, hfold,
    RustRes.bind_ok]

/-! #### C2 -/

/-- C2: value-coercion failure is asymmetric.  Schema side: a `default` that
does not coerce to the declared property type makes `PropSpec::parse` return
a fatal `InvalidFieldType` error, and a field block containing such a
property makes the whole `Spec::parse_fields` fail, so no `Spec` is
returned.  Profile side: an explicit property value that does not coerce
does not fail the parse — the field's property table is stored with the
type's zero default in that property's place. -/
theorem c2_coercion_failure_asymmetry :
    (∀ (name : String) (t : List (String × RawValue)) (tv : RawValue) (s : String)
       (ty : Ty) (dv : RawValue),
      lookupIM t "type" = some tv → tv.asStr = some s → Ty.parse s = some ty →
      lookupIM t "default" = some dv → Value.new ty dv = none →
      PropSpec.parse name (.table t) = .err (.invalidFieldType name "default" ty.asStr)) ∧
    (∀ (raw : List (String × RawValue)) (types : List (String × TypeSpec))
       (ti : String) (sect : List (String × RawValue)) (fk : String)
       (fblock : List (String × RawValue)) (pv : RawValue)
       (pt : List (String × RawValue)) (pk : String) (praw : RawValue),
      ti ∈ types.map Prod.fst →
      lookupIM raw ti = some (.table sect) →
      (fk, RawValue.table fblock) ∈ sect →
      lookupIM fblock "properties" = some pv → pv.asTable = some pt →
      (pk, praw) ∈ pt →
      (∀ nm, (PropSpec.parse nm praw).isOk = false) →
      (Spec.parse_fields raw types).isOk = false) ∧
    (∀ (spec : Spec) (ti tk : String) (config : CfgMap) (xk : String)
       (t : List (String × RawValue)) (fm : List (String × FieldSpec)) (fs : FieldSpec)
       (k : String) (v : RawValue) (ps : PropSpec),
      lookupIM spec.fields ti = some fm → lookupIM fm xk = some fs →
      (∀ kv ∈ t, (lookupIM fs.properties kv.1).isSome = true) →
      (t.map Prod.fst).Nodup → (k, v) ∈ t →
      lookupIM fs.properties k = some ps → Value.new ps.ty v = none →
      ∃ cfg2, processAuxPair spec ti tk config xk (.table t) = .ok cfg2 ∧
        ∃ props, (lookupIM cfg2 tk).bind (fun e => lookupIM e xk) = some props ∧
          lookupIM props k = some (Value.default ps.ty)) := by
  refine ⟨?_, ?_, ?_⟩
  · intro name t tv s ty dv htv hs hty hdv hnone
    have h1 : prop_type_stage name (.table t) = .ok ty := by
      unfold prop_type_stage
      simp [RawValue.get, RawValue.asTable, htv, hs, hty]
    have h2 : prop_default_stage name (.table t) ty =
        .err (.invalidFieldType name "default" ty.asStr) := by
      unfold prop_default_stage
      simp [RawValue.get, RawValue.asTable, hdv, hnone]
    unfold PropSpec.parse
    rw [h1, RustRes.bind_ok, h2, RustRes.bind_err]
  · intro raw types ti sect fk fblock pv pt pk praw hti hsec hfk hpv hpt hpk hfail
    simp only [Spec.parse_fields]
    split
    · rfl
    split
    · rfl
    apply foldRM_isOk_false hti
    intro out
    unfold Spec.parse_fields_step
    have hsec2 : ((lookupIM raw ti).bind RawValue.asTable) = some sect := by
      rw [hsec]
      rfl
    rw [hsec2, unwrapErr_some, RustRes.bind_ok]
    apply RustRes.isOk_bind_left
    apply foldRM_isOk_false hfk
    intro fields
    simp only [RawValue.asTable]
    rw [unwrapErr_some, RustRes.bind_ok]
    apply RustRes.isOk_bind_left
    unfold FieldSpec.parse
    apply RustRes.isOk_bind_all
    intro description
    apply RustRes.isOk_bind_all
    intro rawDeps
    apply RustRes.isOk_bind_all
    intro dependencies
    have h3 : ∀ nm, field_raw_properties nm fblock = .ok (some pt) := by
      intro nm
      unfold field_raw_properties
      rw [hpv]
      simp [hpt]
    rw [h3, RustRes.bind_ok]
    apply RustRes.isOk_bind_left
    show (field_properties _ (some pt)).isOk = false
    unfold field_properties Properties.parse
    apply mapRM_isOk_false hpk
    exact RustRes.isOk_bind_left (hfail _)
  · intro spec ti tk config xk t fm fs k v ps hfm hfs hdecl hnd hkv hps hnone
    obtain ⟨props0, heq, hpre, hexp⟩ := processAuxPair_table hfm hfs hdecl
    refine ⟨_, heq, backfill fs.properties props0, ?_, ?_⟩
    · rw [lookupIM_insertIM_self]
      dsimp only [Option.bind]
      rw [lookupIM_insertIM_self]
    · have hx := hexp hnd k v ps hkv hps
      rw [hnone] at hx
      exact backfill_preserves _ _ hx

/-- Witness for C2: the schema default `300` for a `u8` property is a fatal
`InvalidFieldType` error, while the same non-coercible explicit value in a
profile table parses fine and stores the zero default `U8(0)`. -/
theorem c2_coercion_failure_asymmetry_witness :
    (Value.new .u8 (.int 300) = none ∧
      PropSpec.parse "n" (.table [("type", .str "u8"), ("default", .int 300)]) =
        .err (.invalidFieldType "n" "default" "u8")) ∧
    (∃ cfg2, processAuxPair specW "feature" "feature" [] "logging"
        (.table [("level", .int 300)]) = .ok cfg2 ∧
      ∃ props, (lookupIM cfg2 "feature").bind (fun e => lookupIM e "logging") =
          some props ∧
        lookupIM props "level" = some (Value.default .u8)) := by
  constructor
  · refine ⟨by decide, ?_⟩
    exact c2_coercion_failure_asymmetry.1 "n" [("type", .str "u8"), ("default", .int 300)]
      (.str "u8") "u8" .u8 (.int 300) rfl rfl (by decide) rfl (by decide)
  · exact c2_coercion_failure_asymmetry.2.2 specW "feature" "feature" [] "logging"
      [("level", .int 300)] [("logging", fsLogging)] fsLogging "level" (.int 300)
      ⟨.u8, some (.u8 1)⟩ rfl rfl (by decide) (by decide)
      (List.mem_singleton.mpr rfl) rfl (by decide)

/-! #### C6 -/

/-- C6: in the stored field table, an explicitly set property is present
with its (possibly coercion-defaulted) explicit value — the explicit value
wins over any same-named schema default — and every schema property carrying
a default that is not explicitly set is present with the default's value. -/
theorem c6_explicit_wins_defaults_backfilled :
    (∀ (spec : Spec) (ti tk : String) (config : CfgMap) (xk : String)
       (t : List (String × RawValue)) (fm : List (String × FieldSpec)) (fs : FieldSpec)
       (k : String) (v : RawValue) (ps : PropSpec),
      lookupIM spec.fields ti = some fm → lookupIM fm xk = some fs →
      (∀ kv ∈ t, (lookupIM fs.properties kv.1).isSome = true) →
      (t.map Prod.fst).Nodup → (k, v) ∈ t →
      lookupIM fs.properties k = some ps →
      ∃ cfg2, processAuxPair spec ti tk config xk (.table t) = .ok cfg2 ∧
        ∃ props, (lookupIM cfg2 tk).bind (fun e => lookupIM e xk) = some props ∧
          lookupIM props k = some ((Value.new ps.ty v).getD (Value.default ps.ty))) ∧
    (∀ (spec : Spec) (ti tk : String) (config : CfgMap) (xk : String)
       (t : List (String × RawValue)) (fm : List (String × FieldSpec)) (fs : FieldSpec)
       (k : String) (ps : PropSpec) (d : Value),
      lookupIM spec.fields ti = some fm → lookupIM fm xk = some fs →
      (∀ kv ∈ t, (lookupIM fs.properties kv.1).isSome = true) →
      (k, ps) ∈ fs.properties → ps.default = some d →
      k ∉ t.map Prod.fst → (fs.properties.map Prod.fst).Nodup →
      ∃ cfg2, processAuxPair spec ti tk config xk (.table t) = .ok cfg2 ∧
        ∃ props, (lookupIM cfg2 tk).bind (fun e => lookupIM e xk) = some props ∧
          lookupIM props k = some d) := by
  constructor
  · intro spec ti tk config xk t fm fs k v ps hfm hfs hdecl hnd hkv hps
    obtain ⟨props0, heq, hpre, hexp⟩ := processAuxPair_table hfm hfs hdecl
    refine ⟨_, heq, backfill fs.properties props0, ?_, ?_⟩
    · rw [lookupIM_insertIM_self]
      dsimp only [Option.bind]
      rw [lookupIM_insertIM_self]
    · exact backfill_preserves _ _ (hexp hnd k v ps hkv hps)
  · intro spec ti tk config xk t fm fs k ps d hfm hfs hdecl hmem hd hkt hnd
    obtain ⟨props0, heq, hpre, hexp⟩ := processAuxPair_table hfm hfs hdecl
    refine ⟨_, heq, backfill fs.properties props0, ?_, ?_⟩
    · rw [lookupIM_insertIM_self]
      dsimp only [Option.bind]
      rw [lookupIM_insertIM_self]
    · exact backfill_fills fs.properties props0 k ps d hnd hmem hd (hpre k hkt)

/-- Witness for C6: with `feature.logging` configured as
`{ level = 3, tag = "x" }`, the explicit `level = 3` beats the schema
default `1`; configured as `{ tag = "x" }`, the unset `level` is back-filled
with the default `1`. -/
theorem c6_explicit_wins_defaults_backfilled_witness :
    (∃ cfg2, processAuxPair specW "feature" "feature" [] "logging"
        (.table [("level", .int 3), ("tag", .str "x")]) = .ok cfg2 ∧
      ∃ props, (lookupIM cfg2 "feature").bind (fun e => lookupIM e "logging") =
          some props ∧
        lookupIM props "level" = some (.u8 3)) ∧
    (∃ cfg2, processAuxPair specW "feature" "feature" [] "logging"
        (.table [("tag", .str "x")]) = .ok cfg2 ∧
      ∃ props, (lookupIM cfg2 "feature").bind (fun e => lookupIM e "logging") =
          some props ∧
        lookupIM props "level" = some (.u8 1)) := by
  constructor
  · exact c6_explicit_wins_defaults_backfilled.1 specW "feature" "feature" [] "logging"
      [("level", .int 3), ("tag", .str "x")] [("logging", fsLogging)] fsLogging
      "level" (.int 3) ⟨.u8, some (.u8 1)⟩ rfl rfl (by decide) (by decide)
      (List.mem_cons_self _ _) rfl
  · exact c6_explicit_wins_defaults_backfilled.2 specW "feature" "feature" [] "logging"
      [("tag", .str "x")] [("logging", fsLogging)] fsLogging
      "level" ⟨.u8, some (.u8 1)⟩ (.u8 1) rfl rfl (by decide)
      (List.mem_cons_self _ _) rfl (by decide) (by decide)

/-! #### C7 -/

/-- If some `[config]` entry fails however the accumulated state looks,
`Profile::parse_str` never returns a profile. -/
theorem parse_str_fail_config {spec : Spec} {raw : List (String × RawValue)}
    {ct : List (String × RawValue)} {x : String × RawValue}
    (hct : (lookupIM raw "config").bind RawValue.asTable = some ct)
    (hx : x ∈ ct)
    (hf : ∀ cfg, (processConfigPair spec cfg x).isOk = false) :
    (Profile.parse_str spec raw).isOk = false := by
  unfold Profile.parse_str
  apply RustRes.isOk_bind_all
  intro bins
  apply RustRes.isOk_bind_all
  intro libs
  split
  · rfl
  · apply RustRes.isOk_bind_all
    intro features
    apply RustRes.isOk_bind_all
    intro description
    rw [hct, unwrapO_some, RustRes.bind_ok]
    exact RustRes.isOk_bind_left (foldRM_isOk_false hx hf [])

/-- If some non-`profile`/`config` section fails however the accumulated
state looks, `Profile::parse_str` never returns a profile. -/
theorem parse_str_fail_aux {spec : Spec} {raw : List (String × RawValue)}
    {x : String × RawValue}
    (hx : x ∈ raw) (h1 : x.1 ≠ "profile") (h2 : x.1 ≠ "config")
    (hf : ∀ cfg, (processAuxSection spec cfg x.1 x.2).isOk = false) :
    (Profile.parse_str spec raw).isOk = false := by
  unfold Profile.parse_str
  apply RustRes.isOk_bind_all
  intro bins
  apply RustRes.isOk_bind_all
  intro libs
  split
  · rfl
  · apply RustRes.isOk_bind_all
    intro features
    apply RustRes.isOk_bind_all
    intro description
    apply RustRes.isOk_bind_all
    intro ct
    apply RustRes.isOk_bind_all
    intro config1
    have hmem : x ∈ raw.filter (fun kv => kv.1 != "profile" && kv.1 != "config") := by
      refine List.mem_filter.mpr ⟨hx, ?_⟩
      simp [h1, h2]
    exact RustRes.isOk_bind_left (foldRM_isOk_false hmem hf config1)

/-- C7: profile parsing never silently skips a dangling reference — it fails
(no profile is returned) whenever the document references an unknown
category (in the `[config]` section or as an auxiliary section), an unknown
field of a known category (as a `[config]` selection, or as a boolean or as
a table-valued entry of an auxiliary section), or an undeclared property of
a known field. -/
theorem c7_unknown_references_fail :
    (∀ (spec : Spec) (raw ct : List (String × RawValue)) (c : String) (v : RawValue),
      (lookupIM raw "config").bind RawValue.asTable = some ct →
      (c, v) ∈ ct →
      spec.types.find? (fun p => p.2.key = c) = none →
      (Profile.parse_str spec raw).isOk = false) ∧
    (∀ (spec : Spec) (raw ct : List (String × RawValue)) (c s : String)
       (q : String × TypeSpec),
      (lookupIM raw "config").bind RawValue.asTable = some ct →
      (c, RawValue.str s) ∈ ct →
      spec.types.find? (fun p => p.2.key = c) = some q →
      (lookupIM spec.fields q.1).bind (fun fmm => lookupIM fmm s) = none →
      (Profile.parse_str spec raw).isOk = false) ∧
    (∀ (spec : Spec) (raw : List (String × RawValue)) (k : String) (v : RawValue),
      (k, v) ∈ raw → k ≠ "profile" → k ≠ "config" →
      lookupIM spec.types k = none →
      (Profile.parse_str spec raw).isOk = false) ∧
    (∀ (spec : Spec) (raw : List (String × RawValue)) (k : String)
       (sect : List (String × RawValue)) (ts : TypeSpec) (xk : String) (b : Bool),
      (k, RawValue.table sect) ∈ raw → k ≠ "profile" → k ≠ "config" →
      lookupIM spec.types k = some ts →
      (xk, RawValue.boolean b) ∈ sect →
      (lookupIM spec.fields k).bind (fun fmm => lookupIM fmm xk) = none →
      (Profile.parse_str spec raw).isOk = false) ∧
    (∀ (spec : Spec) (raw : List (String × RawValue)) (k : String)
       (sect : List (String × RawValue)) (ts : TypeSpec) (xk : String)
       (tt : List (String × RawValue)) (fm : List (String × FieldSpec))
       (fs : FieldSpec) (pk : String) (pv : RawValue),
      (k, RawValue.table sect) ∈ raw → k ≠ "profile" → k ≠ "config" →
      lookupIM spec.types k = some ts →
      (xk, RawValue.table tt) ∈ sect →
      lookupIM spec.fields k = some fm → lookupIM fm xk = some fs →
      (pk, pv) ∈ tt →
      lookupIM fs.properties pk = none →
      (Profile.parse_str spec raw).isOk = false) ∧
    (∀ (spec : Spec) (raw : List (String × RawValue)) (k : String)
       (sect : List (String × RawValue)) (ts : TypeSpec) (xk : String)
       (tt : List (String × RawValue)),
      (k, RawValue.table sect) ∈ raw → k ≠ "profile" → k ≠ "config" →
      lookupIM spec.types k = some ts →
      (xk, RawValue.table tt) ∈ sect →
      (lookupIM spec.fields k).bind (fun fmm => lookupIM fmm xk) = none →
      (Profile.parse_str spec raw).isOk = false) := by
  refine ⟨?_, ?_, ?_, ?_, ?_, ?_⟩
  · intro spec raw ct c v hct hmem hno
    refine parse_str_fail_config hct hmem ?_
    intro cfg
    unfold processConfigPair
    apply RustRes.isOk_bind_left
    unfold Profile.parse_config
    rw [hno, unwrapO_none, RustRes.bind_panicked]
    rfl
  · intro spec raw ct c s q hct hmem hfind hbad
    refine parse_str_fail_config hct hmem ?_
    intro cfg
    unfold processConfigPair
    apply RustRes.isOk_bind_left
    unfold Profile.parse_config
    rw [hfind, unwrapO_some, RustRes.bind_ok]
    dsimp only
    cases hf2 : lookupIM spec.fields q.1 with
    | none =>
      rw [unwrapO_none, RustRes.bind_panicked]
      rfl
    | some fm =>
      rw [unwrapO_some, RustRes.bind_ok]
      rw [hf2] at hbad
      dsimp only [Option.bind] at hbad
      rw [hbad, unwrapO_none, RustRes.bind_panicked]
      rfl
  · intro spec raw k v hmem h1 h2 hno
    refine parse_str_fail_aux hmem h1 h2 ?_
    intro cfg
    unfold processAuxSection
    rw [hno, unwrapO_none, RustRes.bind_panicked]
    rfl
  · intro spec raw k sect ts xk b hmem h1 h2 hts hxk hbad
    refine parse_str_fail_aux hmem h1 h2 ?_
    intro cfg
    unfold processAuxSection
    rw [hts, unwrapO_some, RustRes.bind_ok]
    simp only [RawValue.asTable]
    rw [unwrapO_some, RustRes.bind_ok]
    refine foldRM_isOk_false hxk ?_ cfg
    intro s2
    unfold processAuxPair
    dsimp only
    cases hf2 : lookupIM spec.fields k with
    | none =>
      rw [unwrapO_none, RustRes.bind_panicked]
      rfl
    | some fm =>
      rw [unwrapO_some, RustRes.bind_ok]
      rw [hf2] at hbad
      dsimp only [Option.bind] at hbad
      rw [hbad, unwrapO_none, RustRes.bind_panicked]
      rfl
  · intro spec raw k sect ts xk tt fm fs pk pv hmem h1 h2 hts hxk hfm hfs hpk hnp
    refine parse_str_fail_aux hmem h1 h2 ?_
    intro cfg
    unfold processAuxSection
    rw [hts, unwrapO_some, RustRes.bind_ok]
    simp only [RawValue.asTable]
    rw [unwrapO_some, RustRes.bind_ok]
    refine foldRM_isOk_false hxk ?_ cfg
    intro s2
    unfold processAuxPair
    dsimp only
    rw [hfm, unwrapO_some, RustRes.bind_ok, hfs, unwrapO_some, RustRes.bind_ok]
    apply RustRes.isOk_bind_left
    refine foldRM_isOk_false hpk ?_ []
    intro props
    rw [hnp, unwrapO_none, RustRes.bind_panicked]
    rfl
  · intro spec raw k sect ts xk tt hmem h1 h2 hts hxk hbad
    refine parse_str_fail_aux hmem h1 h2 ?_
    intro cfg
    unfold processAuxSection
    rw [hts, unwrapO_some, RustRes.bind_ok]
    simp only [RawValue.asTable]
    rw [unwrapO_some, RustRes.bind_ok]
    refine foldRM_isOk_false hxk ?_ cfg
    intro s2
    unfold processAuxPair
    dsimp only
    cases hf2 : lookupIM spec.fields k with
    | none =>
      rw [unwrapO_none, RustRes.bind_panicked]
      rfl
    | some fm =>
      rw [unwrapO_some, RustRes.bind_ok]
      rw [hf2] at hbad
      dsimp only [Option.bind] at hbad
      rw [hbad, unwrapO_none, RustRes.bind_panicked]
      rfl

/-- Witness for C7: parsing `raw7` — whose `[config]` references the unknown
category `unknown` — against `specW` fails, and so does parsing `raw7b` —
whose auxiliary `feature` section configures the unknown field `nofield`
with a table value. -/
theorem c7_unknown_references_fail_witness :
    ((lookupIM raw7 "config").bind RawValue.asTable =
        some [("unknown", RawValue.str "linux")] ∧
      specW.types.find? (fun p => p.2.key = "unknown") = none ∧
      (Profile.parse_str specW raw7).isOk = false) ∧
    (lookupIM specW.types "feature" = some ⟨"feature", false⟩ ∧
      (lookupIM specW.fields "feature").bind (fun fmm => lookupIM fmm "nofield") =
        none ∧
      (Profile.parse_str specW raw7b).isOk = false) := by
  refine ⟨⟨rfl, by decide, ?_⟩, ⟨rfl, rfl, ?_⟩⟩
  · exact c7_unknown_references_fail.1 specW raw7 [("unknown", .str "linux")]
      "unknown" (.str "linux") rfl (List.mem_singleton.mpr rfl) (by decide)
  · exact c7_unknown_references_fail.2.2.2.2.2 specW raw7b "feature"
      [("nofield", .table [])] ⟨"feature", false⟩ "nofield" []
      (List.mem_cons_of_mem _ (List.mem_cons_of_mem _ (List.mem_cons_self _ _)))
      (by decide) (by decide) rfl (List.mem_singleton.mpr rfl) rfl

/-! #### C10 -/

/-- Associativity of the Rust-result `bind`. -/
theorem RustRes.bind_assoc {ε α β γ : Type} (m : RustRes ε α) (g : α → RustRes ε β)
    (h : β → RustRes ε γ) : (m.bind g).bind h = m.bind (fun a => (g a).bind h) := by
  cases m <;> rfl

/-- A fallible fold over an appended list runs the two halves in sequence. -/
theorem foldRM_append {ε σ α : Type} (f : σ → α → RustRes ε σ) (l1 l2 : List α) :
    ∀ s, foldRM f s (l1 ++ l2) =
      RustRes.bind (foldRM f s l1) (fun s2 => foldRM f s2 l2) := by
  induction l1 with
  | nil =>
    intro s
    simp only [List.nil_append, foldRM, RustRes.bind_ok]
  | cons x l1' ih =>
    intro s
    simp only [List.cons_append, foldRM]
    rw [RustRes.bind_assoc]
    exact RustRes.bind_congr ih

/-- Replacing one element of the fold list by one the step treats the same
way leaves the fold unchanged. -/
theorem foldRM_mid_congr {ε σ α : Type} (g : σ → α → RustRes ε σ) (l1 l2 : List α)
    (a b : α) (h : ∀ s, g s a = g s b) (s : σ) :
    foldRM g s (l1 ++ a :: l2) = foldRM g s (l1 ++ b :: l2) := by
  rw [foldRM_append, foldRM_append]
  apply RustRes.bind_congr
  intro s2
  simp only [foldRM]
  rw [h s2]

/-- An element whose step is the identity can be dropped from the fold. -/
theorem foldRM_erase_mid {ε σ α : Type} (g : σ → α → RustRes ε σ) (a : α)
    (ha : ∀ s, g s a = .ok s) (l1 l2 : List α) (s : σ) :
    foldRM g s (l1 ++ a :: l2) = foldRM g s (l1 ++ l2) := by
  rw [foldRM_append, foldRM_append]
  apply RustRes.bind_congr
  intro s2
  simp only [foldRM]
  rw [ha s2, RustRes.bind_ok]

/-- Lookups at other keys do not see a change of the value stored at `k`. -/
theorem lookupIM_mid_congr {α : Type} (r1 r2 : List (String × α)) (k q : String)
    (a b : α) (h : q ≠ k) :
    lookupIM (r1 ++ (k, a) :: r2) q = lookupIM (r1 ++ (k, b) :: r2) q := by
  induction r1 with
  | nil => simp [lookupIM, Ne.symm h]
  | cons p r1' ih =>
    obtain ⟨pa, pb⟩ := p
    by_cases hp : pa = q
    · simp [lookupIM, hp]
    · simp [lookupIM, hp, ih]

/-- The helper `profile_str_array` only consults the `profile` entry. -/
theorem profile_str_array_congr {raw rawB : List (String × RawValue)} (key : String)
    (h : lookupIM raw "profile" = lookupIM rawB "profile") :
    profile_str_array raw key = profile_str_array rawB key := by
  unfold profile_str_array
  rw [h]

/-- C10: in an auxiliary section, a `field = false` entry still requires the
section's TypeIndex and the field to exist in the schema — parsing fails
when either lookup fails — but contributes nothing: with both lookups
succeeding, parsing the document equals parsing the same document with that
entry removed. -/
theorem c10_false_entry_checked_noop :
    (∀ (spec : Spec) (r1 r2 : List (String × RawValue)) (k f : String)
       (s1 s2 : List (String × RawValue)),
      k ≠ "profile" → k ≠ "config" →
      (lookupIM spec.types k = none ∨
        (lookupIM spec.fields k).bind (fun fmm => lookupIM fmm f) = none) →
      (Profile.parse_str spec
        (r1 ++ (k, RawValue.table (s1 ++ (f, RawValue.boolean false) :: s2)) :: r2)).isOk
        = false) ∧
    (∀ (spec : Spec) (r1 r2 : List (String × RawValue)) (k f : String)
       (s1 s2 : List (String × RawValue)) (ts : TypeSpec)
       (fm : List (String × FieldSpec)),
      k ≠ "profile" → k ≠ "config" →
      lookupIM spec.types k = some ts →
      lookupIM spec.fields k = some fm →
      (lookupIM fm f).isSome = true →
      Profile.parse_str spec
          (r1 ++ (k, RawValue.table (s1 ++ (f, RawValue.boolean false) :: s2)) :: r2) =
        Profile.parse_str spec (r1 ++ (k, RawValue.table (s1 ++ s2)) :: r2)) := by
  constructor
  · intro spec r1 r2 k f s1 s2 h1 h2 hbad
    have hmem : (k, RawValue.table (s1 ++ (f, RawValue.boolean false) :: s2)) ∈
        r1 ++ (k, RawValue.table (s1 ++ (f, RawValue.boolean false) :: s2)) :: r2 :=
      List.mem_append.mpr (Or.inr (List.mem_cons_self _ _))
    refine parse_str_fail_aux hmem h1 h2 ?_
    intro cfg
    rcases hbad with hnone | hfield
    · unfold processAuxSection
      rw [hnone, unwrapO_none, RustRes.bind_panicked]
      rfl
    · unfold processAuxSection
      cases hts2 : lookupIM spec.types k with
      | none =>
        rw [unwrapO_none, RustRes.bind_panicked]
        rfl
      | some ts =>
        rw [unwrapO_some, RustRes.bind_ok]
        simp only [RawValue.asTable]
        rw [unwrapO_some, RustRes.bind_ok]
        refine foldRM_isOk_false
          (List.mem_append.mpr (Or.inr (List.mem_cons_self _ _))) ?_ cfg
        intro s
        unfold processAuxPair
        dsimp only
        cases hf2 : lookupIM spec.fields k with
        | none =>
          rw [unwrapO_none, RustRes.bind_panicked]
          rfl
        | some fm =>
          rw [unwrapO_some, RustRes.bind_ok]
          rw [hf2] at hfield
          dsimp only [Option.bind] at hfield
          rw [hfield, unwrapO_none, RustRes.bind_panicked]
          rfl
  · intro spec r1 r2 k f s1 s2 ts fm h1 h2 hts hfm hff
    obtain ⟨fsv, hfsv⟩ := Option.isSome_iff_exists.mp hff
    have hpair : ∀ s, processAuxPair spec k ts.key s f (.boolean false) = .ok s := by
      intro s
      unfold processAuxPair
      dsimp only
      rw [hfm, unwrapO_some, RustRes.bind_ok, hfsv, unwrapO_some, RustRes.bind_ok]
      rfl
    have hsec : ∀ cfg,
        processAuxSection spec cfg k
          (RawValue.table (s1 ++ (f, RawValue.boolean false) :: s2)) =
        processAuxSection spec cfg k (RawValue.table (s1 ++ s2)) := by
      intro cfg
      unfold processAuxSection
      rw [hts, unwrapO_some, RustRes.bind_ok, RustRes.bind_ok]
      simp only [RawValue.asTable]
      rw [unwrapO_some, unwrapO_some, RustRes.bind_ok, RustRes.bind_ok]
      exact foldRM_erase_mid (fun cfg kv => processAuxPair spec k ts.key cfg kv.1 kv.2)
        (f, RawValue.boolean false) (fun s => hpair s) s1 s2 cfg
    have hprof : lookupIM (r1 ++ (k, RawValue.table (s1 ++ (f, RawValue.boolean false) :: s2)) :: r2) "profile" =
        lookupIM (r1 ++ (k, RawValue.table (s1 ++ s2)) :: r2) "profile" :=
      lookupIM_mid_congr r1 r2 k "profile" _ _ (Ne.symm h1)
    have hconf : lookupIM (r1 ++ (k, RawValue.table (s1 ++ (f, RawValue.boolean false) :: s2)) :: r2) "config" =
        lookupIM (r1 ++ (k, RawValue.table (s1 ++ s2)) :: r2) "config" :=
      lookupIM_mid_congr r1 r2 k "config" _ _ (Ne.symm h2)
    have hpredk : ((k, RawValue.table (s1 ++ (f, RawValue.boolean false) :: s2)).1 != "profile" &&
        (k, RawValue.table (s1 ++ (f, RawValue.boolean false) :: s2)).1 != "config") = true := by
      simp [h1, h2]
    have hfilterA : (r1 ++ (k, RawValue.table (s1 ++ (f, RawValue.boolean false) :: s2)) :: r2).filter
          (fun kv => kv.1 != "profile" && kv.1 != "config") =
        r1.filter (fun kv => kv.1 != "profile" && kv.1 != "config") ++
          (k, RawValue.table (s1 ++ (f, RawValue.boolean false) :: s2)) ::
          r2.filter (fun kv => kv.1 != "profile" && kv.1 != "config") := by
      rw [List.filter_append, List.filter_cons]
      simp only [hpredk, if_pos]
    have hpredk2 : ((k, RawValue.table (s1 ++ s2)).1 != "profile" &&
        (k, RawValue.table (s1 ++ s2)).1 != "config") = true := by
      simp [h1, h2]
    have hfilterB : (r1 ++ (k, RawValue.table (s1 ++ s2)) :: r2).filter
          (fun kv => kv.1 != "profile" && kv.1 != "config") =
        r1.filter (fun kv => kv.1 != "profile" && kv.1 != "config") ++
          (k, RawValue.table (s1 ++ s2)) ::
          r2.filter (fun kv => kv.1 != "profile" && kv.1 != "config") := by
      rw [List.filter_append, List.filter_cons]
      simp only [hpredk2, if_pos]
    have hfoldEq : ∀ cfg,
        foldRM (fun cfg kv => processAuxSection spec cfg kv.1 kv.2) cfg
          ((r1 ++ (k, RawValue.table (s1 ++ (f, RawValue.boolean false) :: s2)) :: r2).filter
            (fun kv => kv.1 != "profile" && kv.1 != "config")) =
        foldRM (fun cfg kv => processAuxSection spec cfg kv.1 kv.2) cfg
          ((r1 ++ (k, RawValue.table (s1 ++ s2)) :: r2).filter
            (fun kv => kv.1 != "profile" && kv.1 != "config")) := by
      intro cfg
      rw [hfilterA, hfilterB]
      exact foldRM_mid_congr (fun cfg kv => processAuxSection spec cfg kv.1 kv.2)
        (r1.filter (fun kv => kv.1 != "profile" && kv.1 != "config"))
        (r2.filter (fun kv => kv.1 != "profile" && kv.1 != "config"))
        (k, RawValue.table (s1 ++ (f, RawValue.boolean false) :: s2))
        (k, RawValue.table (s1 ++ s2))
        (fun s => hsec s) cfg
    unfold Profile.parse_str
    simp only [fun key => profile_str_array_congr key hprof, hprof, hconf, hfoldEq]

/-- Witness for C10: parsing `raw10` (which carries `logging = false` in the
`feature` section) equals parsing `raw10v` (the same document without that
entry); both reference an existing category and field. -/
theorem c10_false_entry_checked_noop_witness :
    lookupIM specW.types "feature" = some ⟨"feature", false⟩ ∧
    lookupIM specW.fields "feature" = some [("logging", fsLogging)] ∧
    (lookupIM [("logging", fsLogging)] "logging").isSome = true ∧
    Profile.parse_str specW raw10 = Profile.parse_str specW raw10v := by
  refine ⟨rfl, rfl, rfl, ?_⟩
  exact c10_false_entry_checked_noop.2 specW
    [("profile", profTable), ("config", .table [])] [] "feature" "logging" [] []
    ⟨"feature", false⟩ [("logging", fsLogging)]
    (by decide) (by decide) rfl rfl rfl

/-! #### C3 -/

/-- Inserting a cons of emissions. -/
theorem insertAllIM_cons (m : List (String × Value)) (kv : String × Value)
    (l : List (String × Value)) :
    insertAllIM m (kv :: l) = insertAllIM (insertIM m kv.1 kv.2) l := rfl

/-- Inserting appended emission lists, in sequence. -/
theorem insertAllIM_append (m : List (String × Value)) (l1 l2 : List (String × Value)) :
    insertAllIM m (l1 ++ l2) = insertAllIM (insertAllIM m l1) l2 :=
  List.foldl_append _ _ _ _

/-- A fold of keyed inserts is the ordered insertion of the mapped pairs. -/
theorem foldl_insertIM_eq_insertAll {β : Type} (g : β → String × Value) :
    ∀ (l : List β) (start : List (String × Value)),
    l.foldl (fun o x => insertIM o (g x).1 (g x).2) start = insertAllIM start (l.map g) := by
  intro l
  induction l with
  | nil => intro start; rfl
  | cons x l' ih =>
    intro start
    simp only [List.foldl_cons, List.map_cons, insertAllIM_cons]
    exact ih _

/-- The inner two loops of `cfg_flags_map` for one category equal the ordered
insertion of that category's spec-side emissions. -/
theorem cat_fold_eq (spec : Spec) (ty : String) (q : String × TypeSpec)
    (hq : spec.types.find? (fun p => p.2.key = ty) = some q) :
    ∀ (v : List (String × List (String × Value))) (out : List (String × Value)),
    v.foldl (fun out fb =>
        (fb.2.foldl (fun out pp =>
            insertIM out (toSnakeCase (ty ++ "_" ++ fb.1 ++ "_" ++ pp.1)) pp.2)
          (if q.2.is_single then
            insertIM out (toSnakeCase ty) (.string fb.1)
          else
            insertIM out (toSnakeCase (ty ++ "_" ++ fb.1)) (.bool true)))) out =
    insertAllIM out (v.flatMap (fun fb =>
      field_flag_entries ty (category_single spec ty) fb.1 fb.2)) := by
  have hcs : category_single spec ty = q.2.is_single := by
    unfold category_single
    rw [hq]
  intro v
  induction v with
  | nil => intro out; rfl
  | cons fb v' ih =>
    intro out
    simp only [List.foldl_cons, List.flatMap_cons]
    rw [ih, insertAllIM_append]
    congr 1
    unfold field_flag_entries
    rw [hcs]
    cases hs : q.2.is_single with
    | true =>
      simp only [if_pos]
      rw [foldl_insertIM_eq_insertAll (fun pp : String × Value =>
        (toSnakeCase (ty ++ "_" ++ fb.1 ++ "_" ++ pp.1), pp.2))]
      rfl
    | false =>
      simp only [Bool.false_eq_true, if_neg]
      rw [foldl_insertIM_eq_insertAll (fun pp : String × Value =>
        (toSnakeCase (ty ++ "_" ++ fb.1 ++ "_" ++ pp.1), pp.2))]
      rfl

/-- The whole `cfg_flags_map` loop succeeds and equals the ordered insertion
of all spec-side emissions, provided every configured TypeKey resolves. -/
theorem cfg_flags_fold (spec : Spec) :
    ∀ (config : CfgMap) (out : List (String × Value)),
    (∀ tv ∈ config, (spec.types.find? (fun q => q.2.key = tv.1)).isSome = true) →
    foldRM (fun out tv =>
        RustRes.bind (unwrapO (spec.types.find? (fun q => q.2.key = tv.1)))
          (fun tyspec => .ok (tv.2.foldl (fun out fb =>
            (fb.2.foldl (fun out pp =>
                insertIM out (toSnakeCase (tv.1 ++ "_" ++ fb.1 ++ "_" ++ pp.1)) pp.2)
              (if tyspec.2.is_single then
                insertIM out (toSnakeCase tv.1) (.string fb.1)
              else
                insertIM out (toSnakeCase (tv.1 ++ "_" ++ fb.1)) (.bool true)))) out)))
      out config =
    (.ok (insertAllIM out (config.flatMap (fun tv => tv.2.flatMap (fun fb =>
        field_flag_entries tv.1 (category_single spec tv.1) fb.1 fb.2))))
      : RustRes PError (List (String × Value))) := by
  intro config
  induction config with
  | nil => intro out _; rfl
  | cons tv config' ih =>
    intro out h
    have hq := h tv (List.mem_cons_self _ _)
    obtain ⟨q, hq⟩ := Option.isSome_iff_exists.mp hq
    simp only [foldRM]
    rw [hq, unwrapO_some, RustRes.bind_ok, RustRes.bind_ok]
    rw [ih _ (fun tv hm => h tv (List.mem_cons_of_mem _ hm))]
    rw [cat_fold_eq spec tv.1 q hq]
    rw [List.flatMap_cons, insertAllIM_append]

/-- C3: for every profile whose configured categories all resolve in the
schema, `cfg_flags_map` is exactly the ordered insertion of, per enabled
field `F` of each category with key `c`: one entry `(snake c, String F)`
when the category is single-select, else one entry
`(snake (c_F), Bool true)`, followed by one entry `(snake (c_F_p), v)` per
stored property `p = v`. -/
theorem c3_cfg_flags_map_entries (p : Profile)
    (h : ∀ tv ∈ p.config, (p.spec.types.find? (fun q => q.2.key = tv.1)).isSome = true) :
    p.cfg_flags_map = .ok (insertAllIM [] (profile_flag_emissions p)) := by
  unfold Profile.cfg_flags_map profile_flag_emissions
  exact cfg_flags_fold p.spec p.config [] h

/-- Witness for C3: on the concrete profile `profW`, the flag map is the
single-select entry `target = "linux"`, the boolean entry
`feature_logging = true`, and the property entry `feature_logging_level = 1`. -/
theorem c3_cfg_flags_map_entries_witness :
    (∀ tv ∈ profW.config,
      (profW.spec.types.find? (fun q => q.2.key = tv.1)).isSome = true) ∧
    profW.cfg_flags_map = .ok (insertAllIM [] (profile_flag_emissions profW)) ∧
    insertAllIM [] (profile_flag_emissions profW) =
      [("target", .string "linux"), ("feature_logging", .bool true),
       ("feature_logging_level", .u8 1)] := by
  refine ⟨by decide, c3_cfg_flags_map_entries profW (by decide), by decide⟩

/-! #### C5 -/

/-- C5: `rustc_cfg_flags` formats the flag map of the profile; entries whose
value is `Bool(false)` produce no tokens at all, and every remaining entry
produces exactly the two tokens `--cfg` and one quoted token — debug-quoted
`'k="…"'` for strings, bare `'k'` for booleans, decimal `'k=n'` for every
integer width. -/
theorem c5_rustc_flags_shape :
    (∀ p : Profile, p.rustc_cfg_flags =
      RustRes.bind p.cfg_flags_map (fun m => .ok (rustc_flags_of_map m))) ∧
    (∀ m : List (String × Value),
      rustc_flags_of_map m =
        (m.filter (fun kv => kv.2 != Value.bool false)).flatMap
          (fun kv => ["--cfg", fmtValueToken kv.1 kv.2])) ∧
    (∀ k x : String, fmtValueToken k (.string x) = sq ++ k ++ "=" ++ debugStr x ++ sq) ∧
    (∀ k : String, fmtValueToken k (.bool true) = sq ++ k ++ sq) ∧
    (∀ (k : String) (x : Int),
      fmtValueToken k (.u8 x) = sq ++ k ++ "=" ++ toString x ++ sq ∧
      fmtValueToken k (.u16 x) = sq ++ k ++ "=" ++ toString x ++ sq ∧
      fmtValueToken k (.u32 x) = sq ++ k ++ "=" ++ toString x ++ sq ∧
      fmtValueToken k (.u64 x) = sq ++ k ++ "=" ++ toString x ++ sq ∧
      fmtValueToken k (.i8 x) = sq ++ k ++ "=" ++ toString x ++ sq ∧
      fmtValueToken k (.i16 x) = sq ++ k ++ "=" ++ toString x ++ sq ∧
      fmtValueToken k (.i32 x) = sq ++ k ++ "=" ++ toString x ++ sq ∧
      fmtValueToken k (.i64 x) = sq ++ k ++ "=" ++ toString x ++ sq) := by
  have key : ∀ (m : List (String × Value)) (acc : List String),
      m.foldl (fun out kv => if kv.2 = Value.bool false then out
        else out ++ ["--cfg", fmtValueToken kv.1 kv.2]) acc =
      acc ++ (m.filter (fun kv => kv.2 != Value.bool false)).flatMap
        (fun kv => ["--cfg", fmtValueToken kv.1 kv.2]) := by
    intro m
    induction m with
    | nil => intro acc; simp
    | cons kv m' ih =>
      intro acc
      simp only [List.foldl_cons, List.filter_cons]
      by_cases hkv : kv.2 = Value.bool false
      · rw [if_pos hkv, ih]
        have hp : (kv.2 != Value.bool false) = false := by simp [hkv]
        rw [hp]
        simp
      · rw [if_neg hkv, ih]
        have hp : (kv.2 != Value.bool false) = true := by simp [hkv]
        rw [hp]
        simp [List.flatMap_cons, List.append_assoc]
  refine ⟨fun p => rfl, ?_, fun k x => rfl, fun k => rfl,
    fun k x => ⟨rfl, rfl, rfl, rfl, rfl, rfl, rfl, rfl⟩⟩
  intro m
  unfold rustc_flags_of_map
  rw [key m []]
  simp

end Pbuild
